import Mathlib

/-!
Verification development for the sweep-line Boolean-operations engine of the
polygon-clipping repository.  The authoritative source is `src/segment.js`;
the helper modules it imports (`flp.js`, `vector.js`, `bbox.js`,
`sweep-event.js`, `operation.js`, the ring model and the sweep driver) are not
part of the source tree and are modelled from the specification, as marked on
each definition.  Coordinates are exact rationals; the tolerance `eps` follows
the spec's example value 1e-15.
-/

namespace PolyClip

/-- A 2D point: an ordered pair of rational coordinates. -/
abbrev Pt := ℚ × ℚ

/-- Modelled from the spec: `flp.js` is not under src/.
`flpEQ(a,b) ⇔ |a−b| ≤ ε·max(1,|a|,|b|)`, parameterised by the tolerance ε
(the spec asks for ε to be a configuration parameter). -/
def flpEQ (ε a b : ℚ) : Bool :=
  decide (|a - b| ≤ ε * max 1 (max |a| |b|))

/-- Modelled from the spec: `flpLT(a,b) ⇔ a < b ∧ ¬flpEQ(a,b)`. -/
def flpLT (ε a b : ℚ) : Bool :=
  decide (a < b) && !(flpEQ ε a b)

/-- Modelled from the spec: `flpCompare(a,b)` returns −1/0/+1 accordingly. -/
def flpCompare (ε a b : ℚ) : Int :=
  if flpEQ ε a b then 0 else if a < b then -1 else 1

/-- Modelled from the spec: `arePointsEqual(p,q) ⇔ flpEQ(p.x,q.x) ∧ flpEQ(p.y,q.y)`. -/
def arePointsEqual (ε : ℚ) (p q : Pt) : Bool :=
  flpEQ ε p.1 q.1 && flpEQ ε p.2 q.2

/-- Modelled from the spec: `SweepEvent.comparePoints` — lexicographic on
`(x, y)` via `flpCompare`: smaller x first; tie-break smaller y first. -/
def comparePoints (ε : ℚ) (p q : Pt) : Int :=
  if flpCompare ε p.1 q.1 ≠ 0 then flpCompare ε p.1 q.1 else flpCompare ε p.2 q.2

/-- Modelled from the spec: `vector.js` — `cross(u,v) = u.x·v.y − u.y·v.x`. -/
def crossProduct (u v : Pt) : ℚ := u.1 * v.2 - u.2 * v.1

/-- Modelled from the spec: `compareVectorAngles(p, a, b) = sign(cross(b−a, p−a))`. -/
def compareVectorAngles (p a b : Pt) : Int :=
  let k := crossProduct (b.1 - a.1, b.2 - a.2) (p.1 - a.1, p.2 - a.2)
  if 0 < k then 1 else if k < 0 then -1 else 0

/-- The working tolerance; the spec's example value is 1e-15. -/
def eps : ℚ := 1 / 10 ^ 15

/-- The geometric data of a `Segment` read by the predicates of `segment.js`:
the canonicalised left endpoint (`leftSE.point`), the right endpoint
(`rightSE.point`) and the id of the input ring it came from (`ringIn.id`). -/
structure GSeg where
  l : Pt
  r : Pt
  ringId : ℕ
deriving DecidableEq, Repr

/-- `segment.js` `get vector`: from the left point to the right. -/
def GSeg.vector (s : GSeg) : Pt := (s.r.1 - s.l.1, s.r.2 - s.l.2)

/-- `segment.js` `get bbox`: `[[points[0][0], min ys], [points[1][0], max ys]]`. -/
def GSeg.bbox (s : GSeg) : Pt × Pt :=
  ((s.l.1, min s.l.2 s.r.2), (s.r.1, max s.l.2 s.r.2))

/-- `segment.js` `isAnEndpoint`: some endpoint is tolerantly equal to `p`. -/
def GSeg.isAnEndpoint (ε : ℚ) (s : GSeg) (p : Pt) : Bool :=
  arePointsEqual ε s.l p || arePointsEqual ε s.r p

/-- Modelled from the spec: `bbox.js` `isInBbox` — tolerant membership of a
point in a bbox, via the flp comparisons. -/
def isInBbox (ε : ℚ) (bb : Pt × Pt) (p : Pt) : Bool :=
  decide (flpCompare ε bb.1.1 p.1 ≤ 0) && decide (flpCompare ε p.1 bb.2.1 ≤ 0) &&
  decide (flpCompare ε bb.1.2 p.2 ≤ 0) && decide (flpCompare ε p.2 bb.2.2 ≤ 0)

/-- Modelled from the spec: `bbox.js` `getBboxOverlap` — `none` when the two
boxes do not (tolerantly) overlap, otherwise the overlap box. -/
def getBboxOverlap (ε : ℚ) (b1 b2 : Pt × Pt) : Option (Pt × Pt) :=
  if flpLT ε b2.2.1 b1.1.1 || flpLT ε b1.2.1 b2.1.1 ||
     flpLT ε b2.2.2 b1.1.2 || flpLT ε b1.2.2 b2.1.2 then none
  else
    some ((max b1.1.1 b2.1.1, max b1.1.2 b2.1.2),
          (min b1.2.1 b2.2.1, min b1.2.2 b2.2.2))

/-- Modelled from the spec: `bbox.js` `getUniqueCorners` — the distinct corners
of a possibly collapsed bbox. -/
def getUniqueCorners (ε : ℚ) (bb : Pt × Pt) : List Pt :=
  let xlo := bb.1.1
  let ylo := bb.1.2
  let xhi := bb.2.1
  let yhi := bb.2.2
  if flpEQ ε xlo xhi && flpEQ ε ylo yhi then [(xlo, ylo)]
  else if flpEQ ε xlo xhi then [(xlo, ylo), (xlo, yhi)]
  else if flpEQ ε ylo yhi then [(xlo, ylo), (xhi, ylo)]
  else [(xlo, ylo), (xlo, yhi), (xhi, ylo), (xhi, yhi)]

/-- `segment.js` `isPointColinear`: an endpoint, or zero vector-angle sign. -/
def GSeg.isPointColinear (ε : ℚ) (s : GSeg) (p : Pt) : Bool :=
  s.isAnEndpoint ε p || decide (compareVectorAngles p s.l s.r = 0)

/-- `segment.js` `isPointBelow`: not an endpoint, and positive vector-angle sign. -/
def GSeg.isPointBelow (ε : ℚ) (s : GSeg) (p : Pt) : Bool :=
  !(s.isAnEndpoint ε p) && decide (0 < compareVectorAngles p s.l s.r)

/-- `segment.js` `isPointAbove`: not an endpoint, and negative vector-angle sign. -/
def GSeg.isPointAbove (ε : ℚ) (s : GSeg) (p : Pt) : Bool :=
  !(s.isAnEndpoint ε p) && decide (compareVectorAngles p s.l s.r < 0)

/-- `segment.js` `isPointOn`: in the bbox and colinear. -/
def GSeg.isPointOn (ε : ℚ) (s : GSeg) (p : Pt) : Bool :=
  isInBbox ε s.bbox p && s.isPointColinear ε p

/-- `segment.js` `isColinearWith`: both endpoints of `o` are colinear with `s`. -/
def GSeg.isColinearWith (ε : ℚ) (s o : GSeg) : Bool :=
  s.isPointColinear ε o.l && s.isPointColinear ε o.r

/-- `segment.js` `isCoincidentWith`: tolerantly equal endpoint pairs. -/
def GSeg.isCoincidentWith (ε : ℚ) (s o : GSeg) : Bool :=
  arePointsEqual ε s.l o.l && arePointsEqual ε s.r o.r

/-- `segment.js` `Segment.compare`, embedded for non-identical arguments (the
`a === b` reference-identity short-circuit of line 9 has no counterpart in a
value model; every theorem below concerns distinct segments).  `none` models
the "equal but not identical?" thrown error. -/
def Segment.compare (ε : ℚ) (a b : GSeg) : Option Int :=
  let alx := a.l.1
  let aly := a.l.2
  let blx := b.l.1
  let bly := b.l.2
  let arx := a.r.1
  let brx := b.r.1
  if flpLT ε brx alx then some 1
  else if flpLT ε arx blx then some (-1)
  else
    let cmpLX := flpCompare ε alx blx
    if a.isColinearWith ε b then
      if cmpLX ≠ 0 then some cmpLX
      else if a.ringId ≠ b.ringId then
        some (if a.ringId < b.ringId then -1 else 1)
      else none
    else
      if arePointsEqual ε a.l b.l then
        some (if a.isPointBelow ε b.r then -1 else 1)
      else if cmpLX = 0 then some (flpCompare ε aly bly)
      else if flpLT ε alx blx then
        some (if a.isPointBelow ε b.l then -1 else 1)
      else if flpLT ε blx alx then
        some (if b.isPointBelow ε a.l then 1 else -1)
      else none

/-- A segment as produced by the `Segment` constructor is well formed: its left
sweep event strictly precedes its right one under the event point ordering. -/
def GSeg.WF (ε : ℚ) (s : GSeg) : Prop := comparePoints ε s.l s.r < 0

instance (ε : ℚ) (s : GSeg) : Decidable (s.WF ε) := by
  unfold GSeg.WF; infer_instance

/-- `segment.js` constructor: fails (`none`) on tolerantly equal points,
otherwise canonicalises the two points into left/right via the event point
order (the two-element `sort` swaps exactly when the comparator is positive). -/
def mkSegment (ε : ℚ) (p1 p2 : Pt) (ringId : ℕ) : Option GSeg :=
  if arePointsEqual ε p1 p2 then none
  else if 0 < comparePoints ε p1 p2 then some ⟨p2, p1, ringId⟩
  else some ⟨p1, p2, ringId⟩

/-- The `isAnIntersection` corner test of `segment.js` `getIntersections`:
the corner is an endpoint of either segment and lies on the other. -/
def isAnIntersectionPt (ε : ℚ) (s o : GSeg) (pt : Pt) : Bool :=
  (s.isAnEndpoint ε pt && o.isPointOn ε pt) ||
  (o.isAnEndpoint ε pt && s.isPointOn ε pt)

/-- `segment.js` `getIntersections`, over exact rationals.  NOTE: rational
division is total with `q / 0 = 0`, so when the general case is reached with
parallel segments (`kross = 0`) this model diverges from the source's IEEE
division, which produces sign-dependent infinities there; the faithful
refinement of that case is `getIntersectionsFlt` below, and the claims about
the general case (C3, C10) are settled against it.  This rational version
carries the sweep pipeline, whose runs never reach the general case with
`kross = 0` (parallel neighbour pairs are decided by the bbox or corner
branches there). -/
def GSeg.getIntersections (ε : ℚ) (s o : GSeg) : List Pt :=
  match getBboxOverlap ε s.bbox o.bbox with
  | none => []
  | some bboxOverlap =>
    let intersections :=
      (getUniqueCorners ε bboxOverlap).filter (isAnIntersectionPt ε s o)
    if 0 < intersections.length then intersections
    else
      let al := s.l
      let bl := o.l
      let va := s.vector
      let vb := o.vector
      let ve : Pt := (bl.1 - al.1, bl.2 - al.2)
      let kross := crossProduct va vb
      let sp := crossProduct ve vb / kross
      if flpLT ε sp 0 || flpLT ε 1 sp then []
      else
        let t := crossProduct ve va / kross
        if flpLT ε t 0 || flpLT ε 1 t then []
        else
          let aix := al.1 + sp * va.1
          let aiy := al.2 + sp * va.2
          let bix := bl.1 + t * vb.1
          let biy := bl.2 + t * vb.2
          [((aix + bix) / 2, (aiy + biy) / 2)]

/-! ### Basic lemmas about the tolerant predicates -/

theorem flpEQ_symm (ε a b : ℚ) : flpEQ ε a b = flpEQ ε b a := by
  unfold flpEQ
  rw [abs_sub_comm, max_comm |a| |b|]

theorem flpEQ_refl (ε : ℚ) (hε : 0 ≤ ε) (a : ℚ) : flpEQ ε a a = true := by
  unfold flpEQ
  have h1 : (1 : ℚ) ≤ max 1 (max |a| |a|) := le_max_left _ _
  have := mul_nonneg hε (le_trans zero_le_one h1)
  simp only [sub_self, abs_zero, decide_eq_true_eq]
  exact this

theorem arePointsEqual_symm (ε : ℚ) (p q : Pt) :
    arePointsEqual ε p q = arePointsEqual ε q p := by
  unfold arePointsEqual
  rw [flpEQ_symm ε p.1 q.1, flpEQ_symm ε p.2 q.2]

theorem flpCompare_antisymm (ε : ℚ) (hε : 0 ≤ ε) (a b : ℚ) :
    flpCompare ε b a = -flpCompare ε a b := by
  unfold flpCompare
  rw [flpEQ_symm ε b a]
  by_cases h : flpEQ ε a b = true
  · simp [h]
  · have hne : a ≠ b := by
      intro hab
      exact h (hab ▸ flpEQ_refl ε hε a)
    rcases lt_trichotomy a b with hlt | heq | hgt
    · simp [h, hlt, not_lt_of_lt hlt]
    · exact absurd heq hne
    · simp [h, hgt, not_lt_of_lt hgt]

theorem comparePoints_antisymm (ε : ℚ) (hε : 0 ≤ ε) (p q : Pt) :
    comparePoints ε q p = -comparePoints ε p q := by
  unfold comparePoints
  rw [flpCompare_antisymm ε hε p.1 q.1, flpCompare_antisymm ε hε p.2 q.2]
  by_cases h : flpCompare ε p.1 q.1 = 0
  · simp [h]
  · have h' : ¬(-flpCompare ε p.1 q.1 = 0) := by omega
    simp [h, h']

theorem flpCompare_eq_zero_iff (ε a b : ℚ) :
    flpCompare ε a b = 0 ↔ flpEQ ε a b = true := by
  unfold flpCompare
  by_cases h : flpEQ ε a b = true
  · simp [h]
  · by_cases hl : a < b <;> simp [h, hl]

theorem arePointsEqual_iff_comparePoints (ε : ℚ) (p q : Pt) :
    arePointsEqual ε p q = true ↔ comparePoints ε p q = 0 := by
  unfold arePointsEqual comparePoints
  by_cases hx : flpCompare ε p.1 q.1 = 0
  · rw [if_neg (by simp [hx])]
    rw [flpCompare_eq_zero_iff] at hx
    simp [hx, flpCompare_eq_zero_iff]
  · rw [if_pos hx]
    constructor
    · intro h
      rw [Bool.and_eq_true] at h
      exact absurd ((flpCompare_eq_zero_iff ε p.1 q.1).mpr h.1) hx
    · intro h
      exact absurd h hx

/-! ### Exact (ε = 0) specialisations -/

theorem flpEQ_zero_iff (a b : ℚ) : flpEQ 0 a b = true ↔ a = b := by
  unfold flpEQ
  rw [zero_mul, decide_eq_true_eq, abs_nonpos_iff, sub_eq_zero]

theorem flpLT_zero_iff (a b : ℚ) : flpLT 0 a b = true ↔ a < b := by
  unfold flpLT
  rw [Bool.and_eq_true, decide_eq_true_eq, Bool.not_eq_true']
  constructor
  · exact fun h => h.1
  · intro h
    refine ⟨h, ?_⟩
    cases hf : flpEQ 0 a b
    · rfl
    · exact absurd ((flpEQ_zero_iff a b).mp hf) (ne_of_lt h)

theorem flpLT_zero_false_iff (a b : ℚ) : flpLT 0 a b = false ↔ b ≤ a := by
  constructor
  · intro h
    by_contra hc
    rw [not_le] at hc
    rw [(flpLT_zero_iff a b).mpr hc] at h
    cases h
  · intro h
    cases hf : flpLT 0 a b
    · rfl
    · exact absurd ((flpLT_zero_iff a b).mp hf) (not_lt_of_le h)

theorem arePointsEqual_zero_iff (p q : Pt) : arePointsEqual 0 p q = true ↔ p = q := by
  unfold arePointsEqual
  rw [Bool.and_eq_true, flpEQ_zero_iff, flpEQ_zero_iff]
  constructor
  · intro h
    exact Prod.ext h.1 h.2
  · intro h
    exact ⟨congrArg Prod.fst h, congrArg Prod.snd h⟩

theorem compareVectorAngles_eq_zero_iff (p a b : Pt) :
    compareVectorAngles p a b = 0 ↔
      crossProduct (b.1 - a.1, b.2 - a.2) (p.1 - a.1, p.2 - a.2) = 0 := by
  unfold compareVectorAngles
  set k := crossProduct (b.1 - a.1, b.2 - a.2) (p.1 - a.1, p.2 - a.2) with hk
  rcases lt_trichotomy k 0 with h | h | h
  · simp [h, not_lt_of_lt h, ne_of_lt h]
  · simp [h]
  · simp [h, not_lt_of_lt h, (ne_of_lt h).symm]

theorem compareVectorAngles_pos_iff (p a b : Pt) :
    0 < compareVectorAngles p a b ↔
      0 < crossProduct (b.1 - a.1, b.2 - a.2) (p.1 - a.1, p.2 - a.2) := by
  unfold compareVectorAngles
  set k := crossProduct (b.1 - a.1, b.2 - a.2) (p.1 - a.1, p.2 - a.2) with hk
  rcases lt_trichotomy k 0 with h | h | h
  · simp [h, not_lt_of_lt h]
  · simp [h]
  · simp [h, not_lt_of_lt h]

theorem wf_zero_lx_le_rx (s : GSeg) (h : s.WF 0) : s.l.1 ≤ s.r.1 := by
  unfold GSeg.WF comparePoints at h
  by_cases hx : flpCompare 0 s.l.1 s.r.1 = 0
  · exact le_of_eq ((flpEQ_zero_iff _ _).mp ((flpCompare_eq_zero_iff 0 _ _).mp hx))
  · rw [if_pos hx] at h
    unfold flpCompare at h
    by_cases he : flpEQ 0 s.l.1 s.r.1 = true
    · rw [if_pos he] at h
      omega
    · rw [if_neg he] at h
      by_cases hl : s.l.1 < s.r.1
      · exact le_of_lt hl
      · rw [if_neg hl] at h
        omega

theorem wf_zero_ne (s : GSeg) (h : s.WF 0) : s.l ≠ s.r := by
  intro hc
  unfold GSeg.WF at h
  have h0 : arePointsEqual 0 s.l s.r = true := (arePointsEqual_zero_iff _ _).mpr hc
  have := (arePointsEqual_iff_comparePoints 0 s.l s.r).mp h0
  omega

theorem isPointColinear_zero_iff (s : GSeg) (p : Pt) :
    s.isPointColinear 0 p = true ↔
      crossProduct (s.r.1 - s.l.1, s.r.2 - s.l.2) (p.1 - s.l.1, p.2 - s.l.2) = 0 := by
  unfold GSeg.isPointColinear GSeg.isAnEndpoint
  rw [Bool.or_eq_true, Bool.or_eq_true, decide_eq_true_eq,
    arePointsEqual_zero_iff, arePointsEqual_zero_iff, compareVectorAngles_eq_zero_iff]
  constructor
  · rintro ((h | h) | h)
    · rw [← h]
      unfold crossProduct
      ring
    · rw [← h]
      unfold crossProduct
      ring
    · exact h
  · intro h
    exact Or.inr h

/-- Transfer of exact colinearity: if both endpoints of `b` lie on the line of
a nondegenerate `a`, then both endpoints of `a` lie on the line of `b`. -/
theorem cross_colinear_transfer (al ar bl br : Pt)
    (hne : ¬(ar.1 - al.1 = 0 ∧ ar.2 - al.2 = 0))
    (h1 : crossProduct (ar.1 - al.1, ar.2 - al.2) (bl.1 - al.1, bl.2 - al.2) = 0)
    (h2 : crossProduct (ar.1 - al.1, ar.2 - al.2) (br.1 - al.1, br.2 - al.2) = 0) :
    crossProduct (br.1 - bl.1, br.2 - bl.2) (al.1 - bl.1, al.2 - bl.2) = 0 ∧
    crossProduct (br.1 - bl.1, br.2 - bl.2) (ar.1 - bl.1, ar.2 - bl.2) = 0 := by
  unfold crossProduct at *
  simp only at h1 h2 ⊢
  have key : (br.1 - bl.1) * (al.2 - bl.2) - (br.2 - bl.2) * (al.1 - bl.1) = 0 := by
    rcases not_and_or.mp hne with hp | hq
    · have h3 : (ar.1 - al.1) *
          ((br.1 - bl.1) * (al.2 - bl.2) - (br.2 - bl.2) * (al.1 - bl.1)) = 0 := by
        linear_combination (bl.1 - al.1) * h2 - (br.1 - al.1) * h1
      rcases mul_eq_zero.mp h3 with h | h
      · exact absurd h hp
      · exact h
    · have h3 : (ar.2 - al.2) *
          ((br.1 - bl.1) * (al.2 - bl.2) - (br.2 - bl.2) * (al.1 - bl.1)) = 0 := by
        linear_combination (bl.2 - al.2) * h2 - (br.2 - al.2) * h1
      rcases mul_eq_zero.mp h3 with h | h
      · exact absurd h hq
      · exact h
  refine ⟨key, ?_⟩
  linear_combination h1 - h2 + key

theorem isColinearWith_zero_symm (a b : GSeg) (ha : a.l ≠ a.r) (hb : b.l ≠ b.r) :
    a.isColinearWith 0 b = b.isColinearWith 0 a := by
  have hane : ¬(a.r.1 - a.l.1 = 0 ∧ a.r.2 - a.l.2 = 0) := by
    rintro ⟨h1, h2⟩
    exact ha (Prod.ext (by linarith) (by linarith)).symm
  have hbne : ¬(b.r.1 - b.l.1 = 0 ∧ b.r.2 - b.l.2 = 0) := by
    rintro ⟨h1, h2⟩
    exact hb (Prod.ext (by linarith) (by linarith)).symm
  have main : ∀ x y : GSeg, ¬(x.r.1 - x.l.1 = 0 ∧ x.r.2 - x.l.2 = 0) →
      x.isColinearWith 0 y = true → y.isColinearWith 0 x = true := by
    intro x y hx hxy
    unfold GSeg.isColinearWith at *
    rw [Bool.and_eq_true, isPointColinear_zero_iff, isPointColinear_zero_iff] at hxy
    rw [Bool.and_eq_true, isPointColinear_zero_iff, isPointColinear_zero_iff]
    exact cross_colinear_transfer x.l x.r y.l y.r hx hxy.1 hxy.2
  cases hab : a.isColinearWith 0 b
  · cases hba : b.isColinearWith 0 a
    · rfl
    · exact absurd (main b a hbne hba) (by rw [hab]; exact fun h => by cases h)
  · rw [main a b hane hab]

/-- In the exact model, with equal left endpoints and non-colinear segments,
`a.isPointBelow b.r` and `b.isPointBelow a.r` are complementary. -/
theorem isPointBelow_zero_compl (a b : GSeg)
    (ha : a.l ≠ a.r) (hal : a.l = b.l)
    (hncol : a.isColinearWith 0 b = false) :
    a.isPointBelow 0 b.r = !(b.isPointBelow 0 a.r) := by
  have hcolL : a.isPointColinear 0 b.l = true := by
    rw [isPointColinear_zero_iff, ← hal]
    unfold crossProduct
    ring
  have hcolR : a.isPointColinear 0 b.r = false := by
    cases hcr : a.isPointColinear 0 b.r
    · rfl
    · unfold GSeg.isColinearWith at hncol
      rw [hcolL, hcr] at hncol
      cases hncol
  have hc : crossProduct (a.r.1 - a.l.1, a.r.2 - a.l.2) (b.r.1 - a.l.1, b.r.2 - a.l.2) ≠ 0 := by
    intro h
    rw [← isPointColinear_zero_iff] at h
    rw [h] at hcolR
    cases hcolR
  set c := crossProduct (a.r.1 - a.l.1, a.r.2 - a.l.2) (b.r.1 - a.l.1, b.r.2 - a.l.2) with hcdef
  have hbr_ne_al : b.r ≠ a.l := by
    intro h
    apply hc
    rw [hcdef, h]
    unfold crossProduct
    ring
  have hbr_ne_ar : b.r ≠ a.r := by
    intro h
    apply hc
    rw [hcdef, h]
    unfold crossProduct
    ring
  have hend_a : a.isAnEndpoint 0 b.r = false := by
    unfold GSeg.isAnEndpoint
    cases h1 : arePointsEqual 0 a.l b.r
    · cases h2 : arePointsEqual 0 a.r b.r
      · rfl
      · exact absurd ((arePointsEqual_zero_iff _ _).mp h2).symm hbr_ne_ar
    · exact absurd ((arePointsEqual_zero_iff _ _).mp h1).symm hbr_ne_al
  have hend_b : b.isAnEndpoint 0 a.r = false := by
    unfold GSeg.isAnEndpoint
    cases h1 : arePointsEqual 0 b.l a.r
    · cases h2 : arePointsEqual 0 b.r a.r
      · rfl
      · exact absurd ((arePointsEqual_zero_iff _ _).mp h2) hbr_ne_ar
    · exact absurd (hal.trans ((arePointsEqual_zero_iff _ _).mp h1)) ha
  have hkb : crossProduct (b.r.1 - b.l.1, b.r.2 - b.l.2) (a.r.1 - b.l.1, a.r.2 - b.l.2) = -c := by
    rw [hcdef, ← hal]
    unfold crossProduct
    ring
  unfold GSeg.isPointBelow
  rw [hend_a, hend_b]
  simp only [Bool.not_false, Bool.true_and]
  have d1 : decide (0 < compareVectorAngles b.r a.l a.r) = decide (0 < c) := by
    rw [decide_eq_decide, compareVectorAngles_pos_iff, hcdef]
  have d2 : decide (0 < compareVectorAngles a.r b.l b.r) = decide (0 < -c) := by
    rw [decide_eq_decide, compareVectorAngles_pos_iff, hkb]
  rw [d1, d2]
  rcases lt_trichotomy c 0 with h | h | h
  · simp [asymm h, neg_pos.mpr h]
  · exact absurd h hc
  · simp [h, asymm (neg_neg_of_pos h)]

theorem flpCompare_zero_of_lt (a b : ℚ) (h : a < b) : flpCompare 0 a b = -1 := by
  unfold flpCompare
  rw [if_neg, if_pos h]
  intro hc
  exact absurd ((flpEQ_zero_iff a b).mp hc) (ne_of_lt h)

theorem flpCompare_zero_of_gt (a b : ℚ) (h : b < a) : flpCompare 0 a b = 1 := by
  unfold flpCompare
  rw [if_neg, if_neg (not_lt_of_lt h)]
  intro hc
  exact absurd ((flpEQ_zero_iff a b).mp hc) (ne_of_gt h)

theorem early_reject_exclusive (a b : GSeg) (ha : a.WF 0) (hb : b.WF 0)
    (h1 : flpLT 0 b.r.1 a.l.1 = true) : flpLT 0 a.r.1 b.l.1 = false := by
  rw [flpLT_zero_iff] at h1
  rw [flpLT_zero_false_iff]
  have hA := wf_zero_lx_le_rx a ha
  have hB := wf_zero_lx_le_rx b hb
  linarith

/-- Claim C2 (amended): `Segment.compare` is antisymmetric for distinct
well-formed segments when the comparisons are exact (tolerance ε = 0): whenever
`compare(a,b)` succeeds, `compare(b,a)` succeeds with the negated value.  With
the positive working tolerance the original claim fails (see the
counterexample), because the ε-tolerant `isColinearWith` is not symmetric and
the ε-tolerant below/above tests of two segments need not be complementary. -/
theorem c2_compare_antisymm_exact (a b : GSeg) (ha : a.WF 0) (hb : b.WF 0)
    (v : ℤ) (h : Segment.compare 0 a b = some v) :
    Segment.compare 0 b a = some (-v) := by
  cases h1 : flpLT 0 b.r.1 a.l.1
  case true =>
    -- early reject: b is wholly left of a's left endpoint; compare(a,b) = 1
    have hx := early_reject_exclusive a b ha hb h1
    simp only [Segment.compare, h1, if_true] at h
    simp only [Option.some.injEq] at h
    simp only [Segment.compare, hx, h1, if_true, Bool.false_eq_true, if_false]
    rw [← h]
  case false =>
  cases h2 : flpLT 0 a.r.1 b.l.1
  case true =>
    have hx : flpLT 0 b.r.1 a.l.1 = false := h1
    simp only [Segment.compare, h1, h2, if_true, Bool.false_eq_true, if_false,
      Option.some.injEq] at h
    simp only [Segment.compare, h2, if_true]
    rw [← h]
    rfl
  case false =>
  have hane := wf_zero_ne a ha
  have hbne := wf_zero_ne b hb
  cases hcol : a.isColinearWith 0 b
  case true =>
    -- colinear branch
    have hcol' : b.isColinearWith 0 a = true := by
      rw [← isColinearWith_zero_symm a b hane hbne]
      exact hcol
    by_cases hx : flpCompare 0 a.l.1 b.l.1 = 0
    · have hx' : flpCompare 0 b.l.1 a.l.1 = 0 := by
        rw [flpCompare_antisymm 0 le_rfl, hx, neg_zero]
      by_cases hid : a.ringId = b.ringId
      · simp [Segment.compare, h1, h2, hcol, hx, hid] at h
      · simp only [Segment.compare, h1, h2, hcol, hcol', hx, hx', hid, Ne.symm hid,
          Bool.false_eq_true, if_false, if_true, ne_eq, not_true_eq_false,
          not_false_eq_true, Option.some.injEq] at h ⊢
        rcases Nat.lt_or_ge a.ringId b.ringId with hlt | hge
        · rw [if_neg (Nat.not_lt_of_lt hlt)]
          rw [if_pos hlt] at h
          omega
        · have hgt : b.ringId < a.ringId := Nat.lt_of_le_of_ne hge (Ne.symm hid)
          rw [if_pos hgt]
          rw [if_neg (Nat.not_lt_of_lt hgt)] at h
          omega
    · have hx' : ¬flpCompare 0 b.l.1 a.l.1 = 0 := by
        rw [flpCompare_antisymm 0 le_rfl]
        omega
      simp only [Segment.compare, h1, h2, hcol, hcol', hx, hx',
        Bool.false_eq_true, if_false, if_true, ne_eq, not_false_eq_true,
        Option.some.injEq] at h ⊢
      rw [flpCompare_antisymm 0 le_rfl, h]
  case false =>
    -- non-colinear branch
    have hcol' : b.isColinearWith 0 a = false := by
      rw [← isColinearWith_zero_symm a b hane hbne]
      exact hcol
    cases heq : arePointsEqual 0 a.l b.l
    case true =>
      have hal : a.l = b.l := (arePointsEqual_zero_iff _ _).mp heq
      have heq' : arePointsEqual 0 b.l a.l = true := by
        rw [arePointsEqual_symm]
        exact heq
      have hcompl := isPointBelow_zero_compl a b hane hal hcol
      simp only [Segment.compare, h1, h2, hcol, hcol', heq, heq',
        Bool.false_eq_true, if_false, if_true, Option.some.injEq] at h ⊢
      cases hBB : GSeg.isPointBelow 0 b a.r
      · have hA : GSeg.isPointBelow 0 a b.r = true := by
          rw [hcompl, hBB]
          rfl
        rw [hA] at h
        simp at h ⊢
        omega
      · have hA : GSeg.isPointBelow 0 a b.r = false := by
          rw [hcompl, hBB]
          rfl
        rw [hA] at h
        simp at h ⊢
        omega
    case false =>
      have heq' : arePointsEqual 0 b.l a.l = false := by
        rw [arePointsEqual_symm]
        exact heq
      by_cases hx : flpCompare 0 a.l.1 b.l.1 = 0
      · -- same left x, different left y
        have hx' : flpCompare 0 b.l.1 a.l.1 = 0 := by
          rw [flpCompare_antisymm 0 le_rfl, hx, neg_zero]
        simp only [Segment.compare, h1, h2, hcol, hcol', heq, heq', hx, hx',
          Bool.false_eq_true, if_false, if_true, Option.some.injEq] at h ⊢
        rw [flpCompare_antisymm 0 le_rfl, h]
      · rcases lt_trichotomy a.l.1 b.l.1 with hlt | hmid | hgt
        · have hcx : flpCompare 0 a.l.1 b.l.1 = -1 := flpCompare_zero_of_lt _ _ hlt
          have hcx' : flpCompare 0 b.l.1 a.l.1 = 1 := flpCompare_zero_of_gt _ _ hlt
          have hlt1 : flpLT 0 a.l.1 b.l.1 = true := (flpLT_zero_iff _ _).mpr hlt
          have hlt2 : flpLT 0 b.l.1 a.l.1 = false :=
            (flpLT_zero_false_iff _ _).mpr (le_of_lt hlt)
          simp only [Segment.compare, h1, h2, hcol, hcol', heq, heq', hcx, hcx',
            hlt1, hlt2, Bool.false_eq_true, if_false, if_true,
            Option.some.injEq] at h ⊢
          cases hB : GSeg.isPointBelow 0 a b.l
          all_goals rw [hB] at h
          all_goals simp at h ⊢
          all_goals omega
        · exact absurd ((flpEQ_zero_iff _ _).mpr hmid)
            (by intro hc; exact hx ((flpCompare_eq_zero_iff 0 _ _).mpr hc))
        · have hcx : flpCompare 0 a.l.1 b.l.1 = 1 := flpCompare_zero_of_gt _ _ hgt
          have hcx' : flpCompare 0 b.l.1 a.l.1 = -1 := flpCompare_zero_of_lt _ _ hgt
          have hlt1 : flpLT 0 a.l.1 b.l.1 = false :=
            (flpLT_zero_false_iff _ _).mpr (le_of_lt hgt)
          have hlt2 : flpLT 0 b.l.1 a.l.1 = true := (flpLT_zero_iff _ _).mpr hgt
          simp only [Segment.compare, h1, h2, hcol, hcol', heq, heq', hcx, hcx',
            hlt1, hlt2, Bool.false_eq_true, if_false, if_true,
            Option.some.injEq] at h ⊢
          cases hB : GSeg.isPointBelow 0 b a.l
          all_goals rw [hB] at h
          all_goals simp at h ⊢
          all_goals try omega

theorem eps_nonneg : (0 : ℚ) ≤ eps := by norm_num [eps]

/-- First concrete segment for the C2 counterexample. -/
def cexA2 : GSeg := ⟨(0, 0), (4, 0), 1⟩

/-- Second concrete segment for the C2 counterexample: its left endpoint is
within tolerance of `cexA2`'s left endpoint but sits slightly off the line, so
`cexA2.isColinearWith cexB2` (via the tolerant endpoint test) while
`¬ cexB2.isColinearWith cexA2`, and the two `compare` calls take different
branches. -/
def cexB2 : GSeg := ⟨(0, 1 / 10 ^ 16), (2, 0), 2⟩

/-- Claim C2 (counterexample): under the working tolerance, `Segment.compare`
is not antisymmetric: these two distinct well-formed segments compare as
`-1` in both directions, and neither call raises the ordering-failure error. -/
theorem c2_compare_antisymm_counterexample :
    cexA2 ≠ cexB2 ∧ cexA2.WF eps ∧ cexB2.WF eps ∧
    Segment.compare eps cexA2 cexB2 = some (-1) ∧
    Segment.compare eps cexB2 cexA2 = some (-1) := by
  refine ⟨by with_unfolding_all decide, by with_unfolding_all decide,
    by with_unfolding_all decide, by with_unfolding_all decide,
    by with_unfolding_all decide⟩

/-- Claim C2 (witness for the amended theorem): a concrete pair of exact
segments on which the ε = 0 antisymmetry theorem fires. -/
theorem c2_compare_antisymm_exact_witness :
    Segment.compare 0 (⟨(0, 0), (4, 0), 1⟩ : GSeg) (⟨(0, 1), (2, 3), 2⟩ : GSeg) =
      some (-1) ∧
    Segment.compare 0 (⟨(0, 1), (2, 3), 2⟩ : GSeg) (⟨(0, 0), (4, 0), 1⟩ : GSeg) =
      some (-(-1)) :=
  ⟨by with_unfolding_all decide,
   c2_compare_antisymm_exact ⟨(0, 0), (4, 0), 1⟩ ⟨(0, 1), (2, 3), 2⟩
     (by with_unfolding_all decide) (by with_unfolding_all decide) (-1)
     (by with_unfolding_all decide)⟩

/-- The segment whose right x is strictly left of the other's left x. -/
def c8left : GSeg := ⟨(0, 0), (1, 0), 0⟩

/-- The other segment, wholly to the right of `c8left`. -/
def c8right : GSeg := ⟨(5, 0), (6, 0), 1⟩

/-- Claim C8 (counterexample): `c8left`'s right x (1) is strictly left of
`c8right`'s left x (5), and the code orders `c8left` LESS than `c8right`
(`compare(c8right, c8left) = 1` and `compare(c8left, c8right) = -1`), not
greater as the claim states. -/
theorem c8_early_reject_counterexample :
    flpLT eps c8left.r.1 c8right.l.1 = true ∧
    Segment.compare eps c8right c8left = some 1 ∧
    Segment.compare eps c8left c8right = some (-1) := by
  refine ⟨by with_unfolding_all decide, by with_unfolding_all decide,
    by with_unfolding_all decide⟩

/-- Claim C8 (amended): when one segment's right endpoint x is strictly left
(under `flpLT`) of the other's left endpoint x (and the symmetric early reject
does not fire first), that segment is ordered LESS than the other:
`compare` returns −1 with it as first argument and +1 with it as second. -/
theorem c8_early_reject_amended (a b : GSeg)
    (h1 : flpLT eps a.r.1 b.l.1 = true)
    (h2 : flpLT eps b.r.1 a.l.1 = false) :
    Segment.compare eps a b = some (-1) ∧ Segment.compare eps b a = some 1 := by
  constructor
  · simp only [Segment.compare, h1, h2, Bool.false_eq_true, if_false, if_true]
  · simp only [Segment.compare, h1, if_true]

/-- Claim C8 (witness for the amended theorem). -/
theorem c8_early_reject_amended_witness :
    Segment.compare eps c8left c8right = some (-1) ∧
    Segment.compare eps c8right c8left = some 1 :=
  c8_early_reject_amended c8left c8right (by with_unfolding_all decide)
    (by with_unfolding_all decide)

/-- Claim C9: the `Segment` constructor fails exactly on tolerantly equal
points; on success the endpoints are canonicalised so that the left sweep
event strictly precedes the right one under the event point ordering, and in
particular the two endpoints are never tolerantly equal. -/
theorem c9_constructor_canonicalises (p1 p2 : Pt) (r : ℕ) :
    (mkSegment eps p1 p2 r = none ↔ arePointsEqual eps p1 p2 = true) ∧
    ∀ s : GSeg, mkSegment eps p1 p2 r = some s →
      s.WF eps ∧ arePointsEqual eps s.l s.r = false := by
  constructor
  · unfold mkSegment
    by_cases h : arePointsEqual eps p1 p2 = true
    · simp [h]
    · by_cases h2 : 0 < comparePoints eps p1 p2
      · simp [h, h2]
      · simp [h, h2]
  · intro s hs
    unfold mkSegment at hs
    by_cases h : arePointsEqual eps p1 p2 = true
    · rw [if_pos h] at hs
      cases hs
    · rw [if_neg h] at hs
      have hne0 : comparePoints eps p1 p2 ≠ 0 := by
        intro hc
        exact h ((arePointsEqual_iff_comparePoints eps p1 p2).mpr hc)
      by_cases h2 : 0 < comparePoints eps p1 p2
      · rw [if_pos h2] at hs
        injection hs with hs
        subst hs
        constructor
        · show comparePoints eps p2 p1 < 0
          rw [comparePoints_antisymm eps eps_nonneg p1 p2]
          omega
        · show arePointsEqual eps p2 p1 = false
          rw [arePointsEqual_symm]
          cases hq : arePointsEqual eps p1 p2
          · rfl
          · exact absurd hq h
      · rw [if_neg h2] at hs
        injection hs with hs
        subst hs
        constructor
        · show comparePoints eps p1 p2 < 0
          omega
        · show arePointsEqual eps p1 p2 = false
          cases hq : arePointsEqual eps p1 p2
          · rfl
          · exact absurd hq h

/-- Claim C9 (witness): the constructor at `(1,0)`, `(0,0)` succeeds and swaps
the endpoints into canonical order. -/
theorem c9_constructor_canonicalises_witness :
    (⟨((0 : ℚ), (0 : ℚ)), ((1 : ℚ), (0 : ℚ)), 0⟩ : GSeg).WF eps ∧
    arePointsEqual eps ((0 : ℚ), (0 : ℚ)) ((1 : ℚ), (0 : ℚ)) = false :=
  (c9_constructor_canonicalises ((1 : ℚ), (0 : ℚ)) ((0 : ℚ), (0 : ℚ)) 0).2
    ⟨((0 : ℚ), (0 : ℚ)), ((1 : ℚ), (0 : ℚ)), 0⟩ (by with_unfolding_all decide)

theorem getBboxOverlap_symm (ε : ℚ) (b1 b2 : Pt × Pt) :
    getBboxOverlap ε b1 b2 = getBboxOverlap ε b2 b1 := by
  unfold getBboxOverlap
  have hc : (flpLT ε b2.2.1 b1.1.1 || flpLT ε b1.2.1 b2.1.1 ||
             flpLT ε b2.2.2 b1.1.2 || flpLT ε b1.2.2 b2.1.2)
          = (flpLT ε b1.2.1 b2.1.1 || flpLT ε b2.2.1 b1.1.1 ||
             flpLT ε b1.2.2 b2.1.2 || flpLT ε b2.2.2 b1.1.2) := by
    cases flpLT ε b2.2.1 b1.1.1 <;> cases flpLT ε b1.2.1 b2.1.1 <;>
      cases flpLT ε b2.2.2 b1.1.2 <;> cases flpLT ε b1.2.2 b2.1.2 <;> rfl
  rw [hc]
  cases hcc : (flpLT ε b1.2.1 b2.1.1 || flpLT ε b2.2.1 b1.1.1 ||
               flpLT ε b1.2.2 b2.1.2 || flpLT ε b2.2.2 b1.1.2)
  · simp only [Bool.false_eq_true, if_false]
    rw [max_comm b1.1.1 b2.1.1, max_comm b1.1.2 b2.1.2,
      min_comm b1.2.1 b2.2.1, min_comm b1.2.2 b2.2.2]
  · simp

/-! ### Operation descriptor and the inclusion predicate -/

/-- Modelled from the spec: `operation.js` is not under src/ — the four
operation type codes. -/
inductive OpType where
  | UNION
  | INTERSECTION
  | XOR
  | DIFFERENCE
deriving DecidableEq, Repr

/-- Modelled from the spec: the operation descriptor read by `_isInResult`:
the type, the operand multipolys (as ids) and the subject multipoly. -/
structure Operation where
  type : OpType
  multiPolys : List ℕ
  subject : ℕ
deriving DecidableEq, Repr

/-- JS `Array.from(new Set(xs))`: dedup keeping first occurrences. -/
def jsDedup (l : List ℕ) : List ℕ :=
  l.foldl (fun acc x => if x ∈ acc then acc else acc ++ [x]) []

/-- JS `Math.min(...ids)` over a (nonempty) list. -/
def minNat (l : List ℕ) : ℕ :=
  match l with
  | [] => 0
  | x :: xs => xs.foldl Nat.min x

/-- `segment.js` `get isCoincidenceWinner`: the receiver's ring id equals the
minimum ring id over its coincidents' rings (the receiver itself included). -/
def isCoincidenceWinner (ringId : ℕ) (coincidentRingIds : List ℕ) : Bool :=
  ringId == minNat coincidentRingIds

/-- `segment.js` `_isInResult`, as a function of the values the source reads:
the operation singleton, the receiver's `isCoincidenceWinner` flag, and its
`multiPolysSLPEnters` / `multiPolysSLPExits` sets (as deduped id lists). -/
def isInResultCalc (op : Operation) (isWinner : Bool)
    (multiPolysSLPEnters multiPolysSLPExits : List ℕ) : Bool :=
  if !isWinner then false
  else
    match op.type with
    | OpType.UNION =>
      let noEnters := multiPolysSLPEnters.length == 0
      let noExits := multiPolysSLPExits.length == 0
      noEnters != noExits
    | OpType.INTERSECTION =>
      let numGeoms := max multiPolysSLPEnters.length multiPolysSLPExits.length
      numGeoms == op.multiPolys.length
    | OpType.XOR =>
      let diff := ((multiPolysSLPEnters.length : ℤ) -
        (multiPolysSLPExits.length : ℤ)).natAbs
      diff % 2 == 1
    | OpType.DIFFERENCE =>
      let isJustSubject : List ℕ → Bool := fun mps =>
        (mps.length == 1) && (mps.headD 0 == op.subject)
      isJustSubject multiPolysSLPEnters != isJustSubject multiPolysSLPExits

/-- Claim C4: under INTERSECTION, a coincidence-winner segment is included in
the result exactly when the side carrying more multipolys carries all of the
operation's operand multipolys: `max(|enters|, |exits|) = |op.multiPolys|`. -/
theorem c4_intersection_inclusion (mps : List ℕ) (subj : ℕ)
    (enters exits : List ℕ) :
    isInResultCalc ⟨OpType.INTERSECTION, mps, subj⟩ true enters exits = true ↔
      max enters.length exits.length = mps.length := by
  unfold isInResultCalc
  simp

theorem foldl_min_mem (xs : List ℕ) : ∀ x : ℕ, xs.foldl Nat.min x ∈ x :: xs := by
  induction xs with
  | nil =>
    intro x
    simp [List.foldl]
  | cons y ys ih =>
    intro x
    have h := ih (Nat.min x y)
    simp only [List.foldl]
    rcases List.mem_cons.mp h with h1 | h1
    · rw [h1]
      show min x y ∈ x :: y :: ys
      rcases min_choice x y with hm | hm
      · rw [hm]
        exact List.mem_cons_self _ _
      · rw [hm]
        exact List.mem_cons_of_mem x (List.mem_cons_self y ys)
    · exact List.mem_cons_of_mem x (List.mem_cons_of_mem y h1)

theorem minNat_mem (l : List ℕ) (h : l ≠ []) : minNat l ∈ l := by
  match l with
  | [] => exact absurd rfl h
  | x :: xs => exact foldl_min_mem xs x

/-- Claim C5 (amended): a member of a coincidence class is a winner exactly
when its ring id attains the class minimum; there is at least one such member,
and all winners share the same (minimal) ring id — but when two distinct
members come from the same ring, both are winners, so "exactly one winner
segment" fails (see the counterexample).  Non-winners are never in the result,
for every operation. -/
theorem c5_winner_amended (rid r2 : ℕ) (ids : List ℕ) (op : Operation)
    (enters exits : List ℕ) (hne : ids ≠ []) :
    (isCoincidenceWinner rid ids = true ↔ rid = minNat ids) ∧
    minNat ids ∈ ids ∧
    (isCoincidenceWinner rid ids = true → isCoincidenceWinner r2 ids = true →
      rid = r2) ∧
    isInResultCalc op false enters exits = false := by
  refine ⟨?_, minNat_mem ids hne, ?_, ?_⟩
  · unfold isCoincidenceWinner
    exact beq_iff_eq
  · intro h1 h2
    unfold isCoincidenceWinner at h1 h2
    rw [beq_iff_eq.mp h1, beq_iff_eq.mp h2]
  · unfold isInResultCalc
    rfl

/-- Claim C5 (witness for the amended theorem). -/
theorem c5_winner_amended_witness :
    (isCoincidenceWinner 2 [2, 5] = true ↔ 2 = minNat [2, 5]) ∧
    minNat [2, 5] ∈ [2, 5] ∧
    (isCoincidenceWinner 2 [2, 5] = true → isCoincidenceWinner 2 [2, 5] = true →
      2 = 2) ∧
    isInResultCalc ⟨OpType.UNION, [], 0⟩ false [] [] = false :=
  c5_winner_amended 2 2 [2, 5] ⟨OpType.UNION, [], 0⟩ [] [] (by decide)

/-! ### The mutable segment store: `registerPrev`, `registerCoincidence`,
`split` -/

/-- The mutable per-segment state touched by the mutators of `segment.js`:
the endpoints (`leftSE.point` / `rightSE.point`), the originating ring id,
`prev`, the `coincidents` list (as segment ids, always containing the owner),
and the memo cache, abstracted as the list of its filled entries (the
constructor's `_clearCache()` makes it empty). -/
structure SegRec where
  lp : Pt
  rp : Pt
  ringId : ℕ
  prev : Option ℕ
  coincidents : List ℕ
  cache : List ℕ
deriving DecidableEq, Repr

instance : Inhabited SegRec := ⟨⟨(0, 0), (0, 0), 0, none, [], []⟩⟩

/-- The segment heap: segment ids are positions in the list. -/
abbrev Store := List SegRec

def getSeg : Store → ℕ → SegRec
  | [], _ => default
  | s :: _, 0 => s
  | _ :: rest, n + 1 => getSeg rest n

def setSeg : Store → ℕ → SegRec → Store
  | [], _, _ => []
  | _ :: rest, 0, v => v :: rest
  | s :: rest, n + 1, v => s :: setSeg rest n v

/-- `segment.js` `registerPrev`: set `prev`, clear the receiver's cache. -/
def registerPrev (st : Store) (i : ℕ) (j : Option ℕ) : Store :=
  let s := getSeg st i
  setSeg st i { s with prev := j, cache := [] }

/-- `segment.js` `registerCoincidence`: push `other.coincidents` onto the
receiver's list, dedup (JS `Set` keeps first occurrences), hand the merged
list to `other`, and clear the receiver's cache.  Note the source clears only
`this._clearCache()` — `other`'s cache is left as is. -/
def registerCoincidence (st : Store) (i j : ℕ) : Store :=
  let si := getSeg st i
  let sj := getSeg st j
  let merged := jsDedup (si.coincidents ++ sj.coincidents)
  let st1 := setSeg st i { si with coincidents := merged, cache := [] }
  let sj1 := getSeg st1 j
  setSeg st1 j { sj1 with coincidents := merged }

/-- A queued sweep event: owning segment id, role and point. -/
structure Ev where
  segId : ℕ
  isLeft : Bool
  pt : Pt
deriving DecidableEq, Repr

/-- Modelled from the spec: stable insertion step for the two-point JS sort
and the split-point sort, under `SweepEvent.comparePoints`. -/
def insertPt (ε : ℚ) (p : Pt) : List Pt → List Pt
  | [] => [p]
  | q :: qs => if comparePoints ε p q < 0 then p :: q :: qs else q :: insertPt ε p qs

def sortPoints (ε : ℚ) (l : List Pt) : List Pt :=
  l.foldl (fun acc p => insertPt ε p acc) []

/-- The `filter` of `split`: keep a point when the comparator against the
previous element of the sorted array is nonzero (original-neighbour
semantics, as in the JS `filter` callback). -/
def dedupGo (ε : ℚ) : Pt → List Pt → List Pt
  | _, [] => []
  | prev, q :: qs =>
    if comparePoints ε prev q = 0 then dedupGo ε q qs else q :: dedupGo ε q qs

def dedupAdjacentPts (ε : ℚ) : List Pt → List Pt
  | [] => []
  | p :: rest => p :: dedupGo ε p rest

/-- The recursion of `segment.js` `split` after the sort/dedup/endpoint checks:
pop the leftmost point, create the clone (a fresh segment with fresh singleton
`coincidents` and empty cache) spanning from the point to the old right
endpoint, shorten the receiver to end at the point (its cache, `prev` and
`coincidents` are left untouched by the source), emit the two new events, and
recurse on the new segment for the remaining points. -/
def splitGo (ε : ℚ) : Store → ℕ → List Pt → Store × List Ev
  | st, _, [] => (st, [])
  | st, i, point :: rest =>
    let si := getSeg st i
    let newId := st.length
    let st1 := st ++ [SegRec.mk point si.rp si.ringId none [newId] []]
    let st2 := setSeg st1 i { si with rp := point }
    let evs := [⟨i, false, point⟩, ⟨newId, true, point⟩]
    let res := splitGo ε st2 newId rest
    (res.1, evs ++ res.2)

/-- `segment.js` `split`: sort and dedup the points, fail (`none`, modelling
the thrown error) if any is an endpoint of the receiver, then split. -/
def splitSeg (ε : ℚ) (st : Store) (i : ℕ) (points : List Pt) :
    Option (Store × List Ev) :=
  let si := getSeg st i
  let pts := dedupAdjacentPts ε (sortPoints ε points)
  if pts.any (fun pt =>
      arePointsEqual ε si.lp pt || arePointsEqual ε si.rp pt) then none
  else some (splitGo ε st i pts)

/-! ### Store lemmas -/

theorem getSeg_set_self (st : Store) (i : ℕ) (v : SegRec) (h : i < st.length) :
    getSeg (setSeg st i v) i = v := by
  induction st generalizing i with
  | nil => exact absurd h (by simp)
  | cons s rest ih =>
    cases i with
    | zero => rfl
    | succ n => exact ih n (Nat.lt_of_succ_lt_succ h)

theorem getSeg_set_ne (st : Store) (i j : ℕ) (v : SegRec) (h : i ≠ j) :
    getSeg (setSeg st j v) i = getSeg st i := by
  induction st generalizing i j with
  | nil => rfl
  | cons s rest ih =>
    cases j with
    | zero =>
      cases i with
      | zero => exact absurd rfl h
      | succ n => rfl
    | succ m =>
      cases i with
      | zero => rfl
      | succ n => exact ih n m (fun hc => h (by rw [hc]))

theorem getSeg_append_lt (st : Store) (x : SegRec) (i : ℕ) (h : i < st.length) :
    getSeg (st ++ [x]) i = getSeg st i := by
  induction st generalizing i with
  | nil => exact absurd h (by simp)
  | cons s rest ih =>
    cases i with
    | zero => rfl
    | succ n => exact ih n (Nat.lt_of_succ_lt_succ h)

theorem setSeg_out (st : Store) (j : ℕ) (v : SegRec) (h : st.length ≤ j) :
    setSeg st j v = st := by
  induction st generalizing j with
  | nil => rfl
  | cons s rest ih =>
    cases j with
    | zero => exact absurd h (by simp)
    | succ m =>
      show s :: setSeg rest m v = s :: rest
      rw [ih m (Nat.le_of_succ_le_succ h)]

theorem getSeg_out (st : Store) (j : ℕ) (h : st.length ≤ j) :
    getSeg st j = default := by
  induction st generalizing j with
  | nil => rfl
  | cons s rest ih =>
    cases j with
    | zero => exact absurd h (by simp)
    | succ m => exact ih m (Nat.le_of_succ_le_succ h)

theorem setSeg_length (st : Store) (j : ℕ) (v : SegRec) :
    (setSeg st j v).length = st.length := by
  induction st generalizing j with
  | nil => rfl
  | cons s rest ih =>
    cases j with
    | zero => rfl
    | succ m => exact congrArg Nat.succ (ih m)

theorem jsDedup_foldl_mem (l : List ℕ) : ∀ (acc : List ℕ) (x : ℕ),
    x ∈ l.foldl (fun acc x => if x ∈ acc then acc else acc ++ [x]) acc ↔
      x ∈ acc ∨ x ∈ l := by
  induction l with
  | nil =>
    intro acc x
    simp
  | cons y ys ih =>
    intro acc x
    simp only [List.foldl]
    rw [ih]
    by_cases hy : y ∈ acc
    · rw [if_pos hy]
      constructor
      · rintro (h | h)
        · exact Or.inl h
        · exact Or.inr (List.mem_cons_of_mem y h)
      · rintro (h | h)
        · exact Or.inl h
        · rcases List.mem_cons.mp h with h1 | h1
          · exact Or.inl (h1 ▸ hy)
          · exact Or.inr h1
    · rw [if_neg hy]
      simp only [List.mem_append, List.mem_cons, List.mem_singleton]
      tauto

theorem jsDedup_mem (l : List ℕ) (x : ℕ) : x ∈ jsDedup l ↔ x ∈ l := by
  unfold jsDedup
  rw [jsDedup_foldl_mem]
  simp

/-! ### Claims C5 (counterexample), C6 and C7 -/

/-- Winner flag of a stored segment, over its coincidents' ring ids, exactly
as `get isCoincidenceWinner` reads them. -/
def segIsCoincidenceWinner (st : Store) (i : ℕ) : Bool :=
  isCoincidenceWinner (getSeg st i).ringId
    ((getSeg st i).coincidents.map (fun j => (getSeg st j).ringId))

/-- Two coincident segments originating from the same input ring (a
self-overlapping ring produces these), after their coincidence is registered. -/
def c5store : Store :=
  registerCoincidence
    [⟨(0, 0), (1, 0), 7, none, [0], []⟩, ⟨(0, 0), (1, 0), 7, none, [1], []⟩] 0 1

/-- Claim C5 (counterexample): in the class `{0, 1}` both members have ring id
7 = the class minimum, so BOTH are coincidence winners — "exactly one winner
segment" fails when two members of a class share the minimal ring id. -/
theorem c5_unique_winner_counterexample :
    (getSeg c5store 0).coincidents = [0, 1] ∧
    (getSeg c5store 1).coincidents = [0, 1] ∧
    segIsCoincidenceWinner c5store 0 = true ∧
    segIsCoincidenceWinner c5store 1 = true := by
  refine ⟨?_, ?_, ?_, ?_⟩ <;> with_unfolding_all decide

/-- A store with two segments whose caches hold (abstract) filled entries. -/
def c6store : Store :=
  [⟨(0, 0), (2, 0), 0, none, [0], [1]⟩, ⟨(0, 0), (2, 0), 1, none, [1], [2]⟩]

/-- Claim C6 (counterexample): `registerCoincidence c6store 0 1` changes
segment 1's `coincidents` but leaves its cache entry in place, and
`split` shortens segment 0 (its right endpoint becomes the split point) while
leaving its cache entry in place — so stale cached values DO remain on mutated
segments. -/
theorem c6_cache_invalidation_counterexample :
    (getSeg (registerCoincidence c6store 0 1) 1).coincidents ≠
      (getSeg c6store 1).coincidents ∧
    (getSeg (registerCoincidence c6store 0 1) 1).cache = [2] ∧
    (splitSeg eps c6store 0 [((1 : ℚ), (0 : ℚ))]).map
        (fun r => ((getSeg r.1 0).rp, (getSeg r.1 0).cache)) =
      some (((1 : ℚ), (0 : ℚ)), [1]) := by
  refine ⟨?_, ?_, ?_⟩ <;> with_unfolding_all decide

theorem splitGo_getSeg_other (ε : ℚ) (pts : List Pt) :
    ∀ (st : Store) (i k : ℕ), k < st.length → k ≠ i →
      getSeg (splitGo ε st i pts).1 k = getSeg st k := by
  induction pts with
  | nil =>
    intro st i k _ _
    rfl
  | cons p rest ih =>
    intro st i k hk hki
    show getSeg (splitGo ε
      (setSeg (st ++ [SegRec.mk p (getSeg st i).rp (getSeg st i).ringId
        none [st.length] []]) i
        { getSeg st i with rp := p }) st.length rest).1 k = getSeg st k
    rw [ih _ _ _ ?_ ?_]
    · rw [getSeg_set_ne _ _ _ _ hki, getSeg_append_lt _ _ _ hk]
    · rw [setSeg_length]
      simp only [List.length_append, List.length_singleton]
      omega
    · omega

theorem splitGo_cache_preserved (ε : ℚ) (pts : List Pt) :
    ∀ (st : Store) (i : ℕ), i < st.length →
      (getSeg (splitGo ε st i pts).1 i).cache = (getSeg st i).cache ∧
      (getSeg (splitGo ε st i pts).1 i).coincidents =
        (getSeg st i).coincidents := by
  induction pts with
  | nil =>
    intro st i _
    exact ⟨rfl, rfl⟩
  | cons p rest ih =>
    intro st i hi
    have hlen : i < (setSeg (st ++ [SegRec.mk p (getSeg st i).rp
        (getSeg st i).ringId none [st.length] []]) i
        { getSeg st i with rp := p }).length := by
      rw [setSeg_length]
      simp only [List.length_append, List.length_singleton]
      omega
    have key : getSeg (splitGo ε st i (p :: rest)).1 i =
        { getSeg st i with rp := p } := by
      show getSeg (splitGo ε (setSeg (st ++ [SegRec.mk p (getSeg st i).rp
          (getSeg st i).ringId none [st.length] []]) i
          { getSeg st i with rp := p }) st.length rest).1 i = _
      rw [splitGo_getSeg_other ε rest _ st.length i hlen (by omega)]
      exact getSeg_set_self _ _ _ (by
        rw [List.length_append]
        simp only [List.length_singleton]
        omega)
    rw [key]
    exact ⟨rfl, rfl⟩

/-- Claim C6 (amended): `registerPrev` clears the receiver's cache, and
`registerCoincidence` clears the receiver's cache but NOT the other
argument's (whose `coincidents` it mutates); `split` does not clear the
receiver's cache at all (the shortened receiver keeps its cache and
`coincidents`; only the newly created pieces start with empty caches). -/
theorem c6_cache_invalidation_amended (st : Store) (i j : ℕ) (jp : Option ℕ)
    (hi : i < st.length) (hij : i ≠ j) (pts : List Pt) (st' : Store)
    (evs : List Ev) (hsplit : splitSeg eps st i pts = some (st', evs)) :
    (getSeg (registerPrev st i jp) i).cache = [] ∧
    (getSeg (registerCoincidence st i j) i).cache = [] ∧
    (getSeg (registerCoincidence st i j) j).cache = (getSeg st j).cache ∧
    (getSeg st' i).cache = (getSeg st i).cache := by
  refine ⟨?_, ?_, ?_, ?_⟩
  · unfold registerPrev
    rw [getSeg_set_self _ _ _ hi]
  · unfold registerCoincidence
    rw [getSeg_set_ne _ _ _ _ hij, getSeg_set_self _ _ _ hi]
  · unfold registerCoincidence
    by_cases hj : j < st.length
    · rw [getSeg_set_self _ _ _ (by rw [setSeg_length]; exact hj),
        getSeg_set_ne _ _ _ _ (Ne.symm hij)]
    · have hjle : st.length ≤ j := Nat.le_of_not_lt hj
      rw [setSeg_out _ _ _ (by rw [setSeg_length]; exact hjle)]
      rw [getSeg_out _ _ (by rw [setSeg_length]; exact hjle)]
      rw [getSeg_out _ _ hjle]
  · unfold splitSeg at hsplit
    by_cases hany : ((dedupAdjacentPts eps (sortPoints eps pts)).any fun pt =>
        arePointsEqual eps (getSeg st i).lp pt ||
        arePointsEqual eps (getSeg st i).rp pt) = true
    · rw [if_pos hany] at hsplit
      cases hsplit
    · rw [if_neg hany] at hsplit
      injection hsplit with hsplit
      have h1 := congrArg Prod.fst hsplit
      simp only at h1
      rw [← h1]
      exact (splitGo_cache_preserved eps _ st i hi).1

/-- The store produced by splitting `c6store`'s segment 0 at `(1,0)`. -/
def c6store' : Store :=
  [⟨(0, 0), (1, 0), 0, none, [0], [1]⟩, ⟨(0, 0), (2, 0), 1, none, [1], [2]⟩,
   ⟨(1, 0), (2, 0), 0, none, [2], []⟩]

/-- The events produced by that split. -/
def c6evs : List Ev := [⟨0, false, (1, 0)⟩, ⟨2, true, (1, 0)⟩]

/-- Claim C6 (witness for the amended theorem). -/
theorem c6_cache_invalidation_amended_witness :
    (getSeg (registerPrev c6store 0 none) 0).cache = [] ∧
    (getSeg (registerCoincidence c6store 0 1) 0).cache = [] ∧
    (getSeg (registerCoincidence c6store 0 1) 1).cache =
      (getSeg c6store 1).cache ∧
    (getSeg c6store' 0).cache = (getSeg c6store 0).cache :=
  c6_cache_invalidation_amended c6store 0 1 none (by decide) (by decide)
    [((1 : ℚ), (0 : ℚ))] c6store' c6evs (by with_unfolding_all decide)

/-- Three segments with singleton coincidence classes. -/
def c7store : Store :=
  [⟨(0, 0), (1, 0), 0, none, [0], []⟩, ⟨(0, 0), (1, 0), 1, none, [1], []⟩,
   ⟨(0, 0), (1, 0), 2, none, [2], []⟩]

/-- `c7store` after coincidence of 1 with 2, then of 0 with 1. -/
def c7store2 : Store := registerCoincidence (registerCoincidence c7store 1 2) 0 1

/-- Claim C7 (counterexample): after merging `{1,2}` and then `{0,1}`,
segment 2 is a member of segment 0's class `[0,1,2]`, but still references its
old list `[1,2]` — the merged identity is NOT shared across the whole class,
so `coincidents` is not maintained as an equivalence class. -/
theorem c7_coincidence_merge_counterexample :
    (getSeg c7store2 0).coincidents = [0, 1, 2] ∧
    (getSeg c7store2 1).coincidents = [0, 1, 2] ∧
    (getSeg c7store2 2).coincidents = [1, 2] ∧
    2 ∈ (getSeg c7store2 0).coincidents ∧
    (getSeg c7store2 2).coincidents ≠ (getSeg c7store2 0).coincidents := by
  refine ⟨?_, ?_, ?_, ?_, ?_⟩ <;> with_unfolding_all decide

/-- Claim C7 (amended): a single `registerCoincidence` does merge correctly
for its two arguments: both end up referencing the same merged list, which is
the set union (first-occurrence dedup) of the two previous classes.  Members
of previously merged classes other than the two arguments keep their old
lists, so the shared identity fails for classes of size three or more (see the
counterexample). -/
theorem c7_coincidence_merge_amended (st : Store) (i j : ℕ)
    (hi : i < st.length) (hj : j < st.length) (hij : i ≠ j) :
    (getSeg (registerCoincidence st i j) i).coincidents =
      (getSeg (registerCoincidence st i j) j).coincidents ∧
    (getSeg (registerCoincidence st i j) i).coincidents =
      jsDedup ((getSeg st i).coincidents ++ (getSeg st j).coincidents) ∧
    ∀ x, x ∈ (getSeg (registerCoincidence st i j) i).coincidents ↔
      x ∈ (getSeg st i).coincidents ∨ x ∈ (getSeg st j).coincidents := by
  have hii : getSeg (registerCoincidence st i j) i =
      { getSeg st i with
        coincidents := jsDedup ((getSeg st i).coincidents ++
          (getSeg st j).coincidents),
        cache := [] } := by
    unfold registerCoincidence
    rw [getSeg_set_ne _ _ _ _ hij, getSeg_set_self _ _ _ hi]
  have hjj : (getSeg (registerCoincidence st i j) j).coincidents =
      jsDedup ((getSeg st i).coincidents ++ (getSeg st j).coincidents) := by
    unfold registerCoincidence
    rw [getSeg_set_self _ _ _ (by rw [setSeg_length]; exact hj)]
  refine ⟨?_, ?_, ?_⟩
  · rw [hii, hjj]
  · rw [hii]
  · intro x
    rw [hii]
    show x ∈ jsDedup _ ↔ _
    rw [jsDedup_mem, List.mem_append]

/-- Claim C7 (witness for the amended theorem). -/
theorem c7_coincidence_merge_amended_witness :
    2 ∈ (getSeg (registerCoincidence c7store 1 2) 1).coincidents ↔
      2 ∈ (getSeg c7store 1).coincidents ∨ 2 ∈ (getSeg c7store 2).coincidents :=
  (c7_coincidence_merge_amended c7store 1 2 (by decide) (by decide)
    (by decide)).2.2 2

/-! ### IEEE-style extended numbers for the division of the general
intersection case -/

/-- A JS number as far as the general case of `getIntersections` is concerned:
a finite value (kept exact), an infinity, or NaN. -/
inductive JsNum where
  | fin (q : ℚ)
  | inf
  | ninf
  | nan
deriving DecidableEq, Repr

def JsNum.isFinite : JsNum → Bool
  | fin _ => true
  | _ => false

def JsNum.neg : JsNum → JsNum
  | fin q => fin (-q)
  | inf => ninf
  | ninf => inf
  | nan => nan

def JsNum.add : JsNum → JsNum → JsNum
  | nan, _ => nan
  | _, nan => nan
  | fin a, fin b => fin (a + b)
  | fin _, inf => inf
  | inf, fin _ => inf
  | fin _, ninf => ninf
  | ninf, fin _ => ninf
  | inf, inf => inf
  | ninf, ninf => ninf
  | inf, ninf => nan
  | ninf, inf => nan

def JsNum.sub (a b : JsNum) : JsNum := a.add b.neg

def JsNum.mul : JsNum → JsNum → JsNum
  | nan, _ => nan
  | _, nan => nan
  | fin a, fin b => fin (a * b)
  | fin a, inf => if 0 < a then inf else if a < 0 then ninf else nan
  | inf, fin a => if 0 < a then inf else if a < 0 then ninf else nan
  | fin a, ninf => if 0 < a then ninf else if a < 0 then inf else nan
  | ninf, fin a => if 0 < a then ninf else if a < 0 then inf else nan
  | inf, inf => inf
  | ninf, ninf => inf
  | inf, ninf => ninf
  | ninf, inf => ninf

/-- JS division restricted to the shapes occurring here.  Division of a finite
value by zero follows IEEE with a positive zero divisor; the sign of a
floating-point zero is not modelled, but none of the conclusions below depend
on the sign of the resulting infinity. -/
def JsNum.div : JsNum → JsNum → JsNum
  | nan, _ => nan
  | _, nan => nan
  | fin a, fin b =>
    if b = 0 then (if 0 < a then inf else if a < 0 then ninf else nan)
    else fin (a / b)
  | inf, fin b => if 0 ≤ b then inf else ninf
  | ninf, fin b => if 0 ≤ b then ninf else inf
  | fin _, inf => fin 0
  | fin _, ninf => fin 0
  | inf, inf => nan
  | inf, ninf => nan
  | ninf, inf => nan
  | ninf, ninf => nan

def JsNum.abs2 : JsNum → JsNum
  | fin q => fin |q|
  | inf => inf
  | ninf => inf
  | nan => nan

/-- JS `Math.max` on two arguments (NaN absorbs). -/
def JsNum.max2 : JsNum → JsNum → JsNum
  | nan, _ => nan
  | _, nan => nan
  | fin a, fin b => fin (max a b)
  | inf, _ => inf
  | _, inf => inf
  | fin a, ninf => fin a
  | ninf, x => x

/-- JS `<` (false whenever NaN is involved). -/
def JsNum.blt : JsNum → JsNum → Bool
  | nan, _ => false
  | _, nan => false
  | fin a, fin b => decide (a < b)
  | fin _, inf => true
  | inf, _ => false
  | ninf, ninf => false
  | ninf, _ => true
  | fin _, ninf => false

/-- JS `<=` (false whenever NaN is involved). -/
def JsNum.ble : JsNum → JsNum → Bool
  | nan, _ => false
  | _, nan => false
  | fin a, fin b => decide (a ≤ b)
  | fin _, inf => true
  | inf, inf => true
  | inf, _ => false
  | ninf, _ => true
  | fin _, ninf => false

/-- Modelled from the spec: the flp predicates evaluated in JS float
semantics, for the parameters of the general intersection case. -/
def flpEQf (ε : ℚ) (a b : JsNum) : Bool :=
  JsNum.ble (JsNum.abs2 (JsNum.sub a b))
    (JsNum.mul (JsNum.fin ε) (JsNum.max2 (JsNum.fin 1)
      (JsNum.max2 (JsNum.abs2 a) (JsNum.abs2 b))))

def flpLTf (ε : ℚ) (a b : JsNum) : Bool :=
  JsNum.blt a b && !(flpEQf ε a b)

/-- `segment.js` `getIntersections` with the general (Schneider–Eberly) case
evaluated in JS float semantics: the two parameter divisions can produce
infinities or NaN when the segments are parallel (`kross = 0`), and the
results flow into the returned point coordinates. -/
def GSeg.getIntersectionsFlt (ε : ℚ) (s o : GSeg) : List (JsNum × JsNum) :=
  match getBboxOverlap ε s.bbox o.bbox with
  | none => []
  | some bboxOverlap =>
    let intersections :=
      (getUniqueCorners ε bboxOverlap).filter (isAnIntersectionPt ε s o)
    if 0 < intersections.length then
      intersections.map (fun p => (JsNum.fin p.1, JsNum.fin p.2))
    else
      let al := s.l
      let bl := o.l
      let va := s.vector
      let vb := o.vector
      let ve : Pt := (bl.1 - al.1, bl.2 - al.2)
      let kross := crossProduct va vb
      let sp := JsNum.div (JsNum.fin (crossProduct ve vb)) (JsNum.fin kross)
      if flpLTf ε sp (JsNum.fin 0) || flpLTf ε (JsNum.fin 1) sp then []
      else
        let t := JsNum.div (JsNum.fin (crossProduct ve va)) (JsNum.fin kross)
        if flpLTf ε t (JsNum.fin 0) || flpLTf ε (JsNum.fin 1) t then []
        else
          let aix := JsNum.add (JsNum.fin al.1) (JsNum.mul sp (JsNum.fin va.1))
          let aiy := JsNum.add (JsNum.fin al.2) (JsNum.mul sp (JsNum.fin va.2))
          let bix := JsNum.add (JsNum.fin bl.1) (JsNum.mul t (JsNum.fin vb.1))
          let biy := JsNum.add (JsNum.fin bl.2) (JsNum.mul t (JsNum.fin vb.2))
          [(JsNum.div (JsNum.add aix bix) (JsNum.fin 2),
            JsNum.div (JsNum.add aiy biy) (JsNum.fin 2))]

theorem jsDiv_fin_zero_nonfinite (c : ℚ) :
    (JsNum.div (JsNum.fin c) (JsNum.fin 0)).isFinite = false := by
  show (if (0 : ℚ) = 0 then
      (if 0 < c then JsNum.inf else if c < 0 then JsNum.ninf else JsNum.nan)
    else JsNum.fin (c / 0)).isFinite = false
  rw [if_pos rfl]
  split_ifs <;> rfl

theorem jsMul_nonfin_fin (s : JsNum) (q : ℚ) (h : s.isFinite = false) :
    (JsNum.mul s (JsNum.fin q)).isFinite = false := by
  cases s with
  | fin a => exact absurd h (by simp [JsNum.isFinite])
  | inf =>
    show (if 0 < q then JsNum.inf else
      if q < 0 then JsNum.ninf else JsNum.nan).isFinite = false
    split_ifs <;> rfl
  | ninf =>
    show (if 0 < q then JsNum.ninf else
      if q < 0 then JsNum.inf else JsNum.nan).isFinite = false
    split_ifs <;> rfl
  | nan => rfl

theorem jsAdd_fin_nonfin (q : ℚ) (t : JsNum) (h : t.isFinite = false) :
    (JsNum.add (JsNum.fin q) t).isFinite = false := by
  cases t with
  | fin a => exact absurd h (by simp [JsNum.isFinite])
  | inf => rfl
  | ninf => rfl
  | nan => rfl

theorem jsAdd_nonfin_nonfin (s t : JsNum) (hs : s.isFinite = false)
    (ht : t.isFinite = false) : (JsNum.add s t).isFinite = false := by
  cases s with
  | fin a => exact absurd hs (by simp [JsNum.isFinite])
  | inf => cases t with
    | fin a => exact absurd ht (by simp [JsNum.isFinite])
    | inf => rfl
    | ninf => rfl
    | nan => rfl
  | ninf => cases t with
    | fin a => exact absurd ht (by simp [JsNum.isFinite])
    | inf => rfl
    | ninf => rfl
    | nan => rfl
  | nan => cases t <;> rfl

theorem jsDiv_nonfin_two (s : JsNum) (h : s.isFinite = false) :
    (JsNum.div s (JsNum.fin 2)).isFinite = false := by
  cases s with
  | fin a => exact absurd h (by simp [JsNum.isFinite])
  | inf =>
    show (if (0 : ℚ) ≤ 2 then JsNum.inf else JsNum.ninf).isFinite = false
    rw [if_pos (by norm_num)]
    rfl
  | ninf =>
    show (if (0 : ℚ) ≤ 2 then JsNum.ninf else JsNum.inf).isFinite = false
    rw [if_pos (by norm_num)]
    rfl
  | nan => rfl

/-- A non-finite parameter slips past both `flpLT` guards: `flpLT(s, 0)` and
`flpLT(1, s)` are both false for s ∈ {+∞, −∞, NaN}, because under the
relative-ε formula `flpEQ` holds between any finite number and an infinity
(`∞ ≤ ε·∞`), and every comparison against NaN is false. -/
theorem guards_pass_nonfin (s : JsNum) (h : s.isFinite = false) :
    (flpLTf eps s (JsNum.fin 0) || flpLTf eps (JsNum.fin 1) s) = false := by
  cases s with
  | fin a => exact absurd h (by simp [JsNum.isFinite])
  | inf => with_unfolding_all decide
  | ninf => with_unfolding_all decide
  | nan => with_unfolding_all decide

/-- Claim C10 (counterexample): two plain parallel segments with overlapping
bounding boxes reach the general case with `kross = 0`; the guards do NOT
reject the infinite parameters, and the returned intersection point has
infinite coordinates. -/
theorem c10_parallel_guards_counterexample :
    (⟨(0, 0), (10, 10), 0⟩ : GSeg).WF eps ∧
    (⟨(4, 3), (8, 7), 1⟩ : GSeg).WF eps ∧
    crossProduct (⟨(0, 0), (10, 10), 0⟩ : GSeg).vector
      (⟨(4, 3), (8, 7), 1⟩ : GSeg).vector = 0 ∧
    GSeg.getIntersectionsFlt eps ⟨(0, 0), (10, 10), 0⟩ ⟨(4, 3), (8, 7), 1⟩ =
      [(JsNum.inf, JsNum.inf)] := by
  refine ⟨?_, ?_, ?_, ?_⟩ <;> with_unfolding_all decide

/-- Claim C10 (amended): whenever the general case is reached (bboxes overlap,
no corner intersection) with parallel segments (`kross = 0`), the division
produces a non-finite parameter which the `flpLT` guards do NOT reject, and
the single returned point has a non-finite x coordinate — the opposite of the
claimed early empty return. -/
theorem c10_parallel_general_amended (a b : GSeg) (bb : Pt × Pt)
    (hbb : getBboxOverlap eps a.bbox b.bbox = some bb)
    (hcorners : (getUniqueCorners eps bb).filter (isAnIntersectionPt eps a b)
      = [])
    (hk : crossProduct a.vector b.vector = 0) :
    ∃ x y : JsNum, a.getIntersectionsFlt eps b = [(x, y)] ∧
      x.isFinite = false := by
  have hsp : (JsNum.div
      (JsNum.fin (crossProduct (b.l.1 - a.l.1, b.l.2 - a.l.2) b.vector))
      (JsNum.fin 0)).isFinite = false := jsDiv_fin_zero_nonfinite _
  have ht : (JsNum.div
      (JsNum.fin (crossProduct (b.l.1 - a.l.1, b.l.2 - a.l.2) a.vector))
      (JsNum.fin 0)).isFinite = false := jsDiv_fin_zero_nonfinite _
  unfold GSeg.getIntersectionsFlt
  rw [hbb]
  simp only [hcorners, List.length_nil, lt_self_iff_false, if_false, hk]
  rw [guards_pass_nonfin _ hsp, guards_pass_nonfin _ ht]
  simp only [Bool.false_eq_true, if_false]
  refine ⟨_, _, rfl, ?_⟩
  apply jsDiv_nonfin_two
  apply jsAdd_nonfin_nonfin
  · exact jsAdd_fin_nonfin _ _ (jsMul_nonfin_fin _ _ hsp)
  · exact jsAdd_fin_nonfin _ _ (jsMul_nonfin_fin _ _ ht)

/-- Claim C10 (witness for the amended theorem). -/
theorem c10_parallel_general_amended_witness :
    ∃ x y : JsNum,
      GSeg.getIntersectionsFlt eps ⟨(0, 0), (10, 10), 0⟩ ⟨(4, 3), (8, 7), 1⟩ =
        [(x, y)] ∧ x.isFinite = false :=
  c10_parallel_general_amended ⟨(0, 0), (10, 10), 0⟩ ⟨(4, 3), (8, 7), 1⟩
    ((4, 3), (8, 7)) (by with_unfolding_all decide)
    (by with_unfolding_all decide) (by with_unfolding_all decide)

/-! ### Claim C3: symmetry of `getIntersections`, over the float model -/

theorem jsAdd_comm (x y : JsNum) : JsNum.add x y = JsNum.add y x := by
  cases x <;> cases y <;> simp [JsNum.add, add_comm]

theorem jsDiv_fin_fin (a k : ℚ) (hk : k ≠ 0) :
    JsNum.div (JsNum.fin a) (JsNum.fin k) = JsNum.fin (a / k) := by
  show (if k = 0 then _ else JsNum.fin (a / k)) = JsNum.fin (a / k)
  rw [if_neg hk]

theorem jsDiv_neg_neg (a k : ℚ) (hk : k ≠ 0) :
    JsNum.div (JsNum.fin (-a)) (JsNum.fin (-k)) =
      JsNum.div (JsNum.fin a) (JsNum.fin k) := by
  rw [jsDiv_fin_fin _ _ (neg_ne_zero.mpr hk), jsDiv_fin_fin _ _ hk,
    neg_div_neg_eq]

/-- Claim C3 (counterexample): `getIntersections` is NOT symmetric for every
pair of segments.  For this parallel pair the forward call returns the single
point `(+∞, +∞)` while the reversed call returns `(−∞, −∞)` (the unguarded
general-case division flips sign with the argument order), so the two result
sets differ. -/
theorem c3_getIntersections_symm_counterexample :
    GSeg.getIntersectionsFlt eps ⟨(0, 0), (10, 10), 0⟩ ⟨(4, 3), (8, 7), 1⟩ =
      [(JsNum.inf, JsNum.inf)] ∧
    GSeg.getIntersectionsFlt eps ⟨(4, 3), (8, 7), 1⟩ ⟨(0, 0), (10, 10), 0⟩ =
      [(JsNum.ninf, JsNum.ninf)] ∧
    ¬ (JsNum.inf, JsNum.inf) ∈
      GSeg.getIntersectionsFlt eps ⟨(4, 3), (8, 7), 1⟩ ⟨(0, 0), (10, 10), 0⟩ := by
  refine ⟨?_, ?_, ?_⟩ <;> with_unfolding_all decide

/-- Claim C3 (amended): `getIntersections` is symmetric — the two calls
return the same list of points, hence the same set — for every pair of
segments whose vectors are not parallel (`kross ≠ 0`), and for every pair
decided before the division (no bbox overlap, or a corner intersection
found).  Only the parallel general case is excluded: there the two call
orders return oppositely-signed non-finite points (see the counterexample). -/
theorem c3_getIntersectionsFlt_symm (a b : GSeg)
    (h : crossProduct a.vector b.vector ≠ 0 ∨
      getBboxOverlap eps a.bbox b.bbox = none ∨
      ∀ bb, getBboxOverlap eps a.bbox b.bbox = some bb →
        (getUniqueCorners eps bb).filter (isAnIntersectionPt eps a b) ≠ []) :
    a.getIntersectionsFlt eps b = b.getIntersectionsFlt eps a := by
  unfold GSeg.getIntersectionsFlt
  rw [getBboxOverlap_symm eps a.bbox b.bbox]
  cases hov : getBboxOverlap eps b.bbox a.bbox
  · rfl
  case some bb =>
  simp only []
  have hfil : (getUniqueCorners eps bb).filter (isAnIntersectionPt eps a b)
      = (getUniqueCorners eps bb).filter (isAnIntersectionPt eps b a) := by
    apply List.filter_congr
    intro pt _
    unfold isAnIntersectionPt
    exact Bool.or_comm _ _
  rw [hfil]
  by_cases hlen : 0 <
      ((getUniqueCorners eps bb).filter (isAnIntersectionPt eps b a)).length
  · rw [if_pos hlen, if_pos hlen]
  · rw [if_neg hlen, if_neg hlen]
    have hk : crossProduct a.vector b.vector ≠ 0 := by
      rcases h with hk | hnone | hcor
      · exact hk
      · rw [getBboxOverlap_symm eps a.bbox b.bbox, hov] at hnone
        cases hnone
      · have hne := hcor bb ((getBboxOverlap_symm eps a.bbox b.bbox).trans hov)
        have hempty : (getUniqueCorners eps bb).filter
            (isAnIntersectionPt eps b a) = [] :=
          List.length_eq_zero.mp (Nat.eq_zero_of_not_pos hlen)
        exact absurd (hfil.trans hempty) hne
    have hks : crossProduct b.vector a.vector
        = -crossProduct a.vector b.vector := by
      unfold crossProduct GSeg.vector
      ring
    have hnum1 : crossProduct (a.l.1 - b.l.1, a.l.2 - b.l.2) a.vector
        = -crossProduct (b.l.1 - a.l.1, b.l.2 - a.l.2) a.vector := by
      unfold crossProduct GSeg.vector
      ring
    have hnum2 : crossProduct (a.l.1 - b.l.1, a.l.2 - b.l.2) b.vector
        = -crossProduct (b.l.1 - a.l.1, b.l.2 - a.l.2) b.vector := by
      unfold crossProduct GSeg.vector
      ring
    rw [hks, hnum1, hnum2]
    rw [jsDiv_neg_neg (crossProduct (b.l.1 - a.l.1, b.l.2 - a.l.2) a.vector)
      (crossProduct a.vector b.vector) hk]
    rw [jsDiv_neg_neg (crossProduct (b.l.1 - a.l.1, b.l.2 - a.l.2) b.vector)
      (crossProduct a.vector b.vector) hk]
    set S := JsNum.div
      (JsNum.fin (crossProduct (b.l.1 - a.l.1, b.l.2 - a.l.2) b.vector))
      (JsNum.fin (crossProduct a.vector b.vector)) with hSdef
    set T := JsNum.div
      (JsNum.fin (crossProduct (b.l.1 - a.l.1, b.l.2 - a.l.2) a.vector))
      (JsNum.fin (crossProduct a.vector b.vector)) with hTdef
    cases hg1 : (flpLTf eps S (JsNum.fin 0) || flpLTf eps (JsNum.fin 1) S) <;>
      cases hg2 : (flpLTf eps T (JsNum.fin 0) || flpLTf eps (JsNum.fin 1) T) <;>
      simp only [hg1, hg2, Bool.false_eq_true, if_false, if_true]
    refine congrArg (fun p => [p]) ?_
    refine Prod.ext ?_ ?_
    · show JsNum.div (JsNum.add
          (JsNum.add (JsNum.fin a.l.1) (JsNum.mul S (JsNum.fin a.vector.1)))
          (JsNum.add (JsNum.fin b.l.1) (JsNum.mul T (JsNum.fin b.vector.1))))
          (JsNum.fin 2)
        = JsNum.div (JsNum.add
          (JsNum.add (JsNum.fin b.l.1) (JsNum.mul T (JsNum.fin b.vector.1)))
          (JsNum.add (JsNum.fin a.l.1) (JsNum.mul S (JsNum.fin a.vector.1))))
          (JsNum.fin 2)
      rw [jsAdd_comm
        (JsNum.add (JsNum.fin a.l.1) (JsNum.mul S (JsNum.fin a.vector.1)))
        (JsNum.add (JsNum.fin b.l.1) (JsNum.mul T (JsNum.fin b.vector.1)))]
    · show JsNum.div (JsNum.add
          (JsNum.add (JsNum.fin a.l.2) (JsNum.mul S (JsNum.fin a.vector.2)))
          (JsNum.add (JsNum.fin b.l.2) (JsNum.mul T (JsNum.fin b.vector.2))))
          (JsNum.fin 2)
        = JsNum.div (JsNum.add
          (JsNum.add (JsNum.fin b.l.2) (JsNum.mul T (JsNum.fin b.vector.2)))
          (JsNum.add (JsNum.fin a.l.2) (JsNum.mul S (JsNum.fin a.vector.2))))
          (JsNum.fin 2)
      rw [jsAdd_comm
        (JsNum.add (JsNum.fin a.l.2) (JsNum.mul S (JsNum.fin a.vector.2)))
        (JsNum.add (JsNum.fin b.l.2) (JsNum.mul T (JsNum.fin b.vector.2)))]

/-- Claim C3 (witness for the amended theorem): a concrete non-parallel pair,
symmetric in both orders (both calls return the point `(5, 5)`). -/
theorem c3_getIntersectionsFlt_symm_witness :
    GSeg.getIntersectionsFlt eps ⟨(0, 0), (10, 10), 0⟩ ⟨(0, 10), (10, 0), 1⟩ =
      GSeg.getIntersectionsFlt eps ⟨(0, 10), (10, 0), 1⟩ ⟨(0, 0), (10, 10), 0⟩ :=
  c3_getIntersectionsFlt_symm ⟨(0, 0), (10, 10), 0⟩ ⟨(0, 10), (10, 0), 1⟩
    (Or.inl (by with_unfolding_all decide))

/-! ### The sweep pipeline (modelled from the spec)

`src/` contains only `segment.js`; the ring model, the event queue, the
status structure, the sweep driver, the operation dispatch and the ring
stitcher are modelled from the specification (§3, §4.4, §4.7–§4.9, §6),
reusing the `segment.js` embeddings above for all geometry. -/

/-- Modelled from the spec: an input ring — stable id (also its index), its
poly, its multipoly, and the exterior flag. -/
structure RingIn where
  id : ℕ
  polyId : ℕ
  mpId : ℕ
  isExterior : Bool
deriving DecidableEq, Repr

instance : Inhabited RingIn := ⟨⟨0, 0, 0, true⟩⟩

/-- The geometric view of a stored segment, as `Segment.compare` and
`getIntersections` read it. -/
def toG (segs : Store) (i : ℕ) : GSeg :=
  ⟨(getSeg segs i).lp, (getSeg segs i).rp, (getSeg segs i).ringId⟩

/-- Modelled from the spec (§4.4): the event-queue order — by point, then
right events before left events; two left events at one point are ordered by
`Segment.compare` of their segments (so the driver inserts bottom-to-top at a
shared point), remaining ties by segment id. -/
def evLess (segs : Store) (e1 e2 : Ev) : Bool :=
  let c := comparePoints eps e1.pt e2.pt
  if c < 0 then true
  else if 0 < c then false
  else if e1.isLeft != e2.isLeft then !e1.isLeft
  else if e1.isLeft then
    match Segment.compare eps (toG segs e1.segId) (toG segs e2.segId) with
    | some v => if v < 0 then true else if 0 < v then false
        else e1.segId < e2.segId
    | none => e1.segId < e2.segId
  else e1.segId < e2.segId

def insertEv (segs : Store) (e : Ev) : List Ev → List Ev
  | [] => [e]
  | f :: fs => if evLess segs e f then e :: f :: fs else f :: insertEv segs e fs

/-- Position at which a segment enters the status structure (the number of
active segments ordered before it under `Segment.compare`). -/
def statusPos (segs : Store) (i : ℕ) : List ℕ → ℕ
  | [] => 0
  | j :: js =>
    match Segment.compare eps (toG segs i) (toG segs j) with
    | some v => if v < 0 then 0 else statusPos segs i js + 1
    | none => statusPos segs i js + 1

def insertAt (l : List ℕ) (k : ℕ) (i : ℕ) : List ℕ :=
  l.take k ++ i :: l.drop k

/-- The sweep state: the ring table, the segment heap, the pending event
queue (sorted) and the status structure (active segment ids, bottom to top). -/
structure SwState where
  rings : List RingIn
  segs : Store
  queue : List Ev
  status : List ℕ
deriving Repr

/-- Apply a split of segment `i` at `pts` to the sweep state: run
`segment.js` `split`, reparent the queued right event of `i` to the last
newly created piece (the original `rightSE` object is adopted by the final
new segment), and enqueue the newly generated events. -/
def splitApply (s : SwState) (i : ℕ) (pts : List Pt) : SwState :=
  if pts.isEmpty then s
  else
    match splitSeg eps s.segs i pts with
    | none => s
    | some (segs', newEvs) =>
      let lastId := segs'.length - 1
      let queue1 := s.queue.map (fun e =>
        if e.segId == i && !e.isLeft then { e with segId := lastId } else e)
      let queue2 := newEvs.foldl (fun q ev => insertEv segs' ev q) queue1
      { s with segs := segs', queue := queue2 }

/-- Modelled from the spec (§4.9): compute the intersections of segments `i`
and `j` and split each on the intersection points that are not already among
its endpoints. -/
def handleInters (s : SwState) (i j : ℕ) : SwState :=
  let gi := toG s.segs i
  let gj := toG s.segs j
  let inters := gi.getIntersections eps gj
  let ptsI := inters.filter (fun pt => !(gi.isAnEndpoint eps pt))
  let ptsJ := inters.filter (fun pt => !(gj.isAnEndpoint eps pt))
  let s1 := splitApply s i ptsI
  splitApply s1 j ptsJ

/-- Modelled from the spec (§4.9, left event): insert into the status,
register the predecessor as `prev`, check intersections against both
neighbours, and register coincidence with a coincident neighbour. -/
def processLeft (s : SwState) (e : Ev) : SwState :=
  let pos := statusPos s.segs e.segId s.status
  let p : Option ℕ := if pos == 0 then none else s.status.get? (pos - 1)
  let n : Option ℕ := s.status.get? pos
  let status' := insertAt s.status pos e.segId
  let s1 := { s with segs := registerPrev s.segs e.segId p, status := status' }
  let s2 := match p with
    | none => s1
    | some pj => handleInters s1 e.segId pj
  let s3 := match n with
    | none => s2
    | some nj => handleInters s2 e.segId nj
  let s4 := match p with
    | none => s3
    | some pj =>
      if (toG s3.segs e.segId).isCoincidentWith eps (toG s3.segs pj) then
        { s3 with segs := registerCoincidence s3.segs e.segId pj }
      else s3
  match n with
  | none => s4
  | some nj =>
    if (toG s4.segs e.segId).isCoincidentWith eps (toG s4.segs nj) then
      { s4 with segs := registerCoincidence s4.segs e.segId nj }
    else s4

/-- Modelled from the spec (§4.9, right event): remove from the status and
test the two former neighbours against each other. -/
def processRight (s : SwState) (e : Ev) : SwState :=
  match s.status.findIdx? (fun j => j == e.segId) with
  | none => s
  | some idx =>
    let p : Option ℕ := if idx == 0 then none else s.status.get? (idx - 1)
    let n : Option ℕ := s.status.get? (idx + 1)
    let s1 := { s with status := s.status.eraseIdx idx }
    match p, n with
    | some pj, some nj => handleInters s1 pj nj
    | _, _ => s1

def sweepStep (s : SwState) : SwState :=
  match s.queue with
  | [] => s
  | e :: rest =>
    let s1 := { s with queue := rest }
    if e.isLeft then processLeft s1 e else processRight s1 e

def sweepRun : ℕ → SwState → SwState
  | 0, s => s
  | fuel + 1, s =>
    match s.queue with
    | [] => s
    | _ :: _ => sweepRun fuel (sweepStep s)

/-! #### End-of-sweep classification (the cached getters of `segment.js`,
computed as pure functions over the final state) -/

/-- The `while (prev && prev.ringIn !== this.ringIn)` walk of
`_sweepLineEntersRing`. -/
def prevSameRing (segs : Store) : ℕ → Option ℕ → ℕ → Option ℕ
  | 0, _, _ => none
  | _ + 1, none, _ => none
  | fuel + 1, some j, rid =>
    if (getSeg segs j).ringId == rid then some j
    else prevSameRing segs fuel (getSeg segs j).prev rid

/-- `segment.js` `_sweepLineEntersRing`: opposite of the previous segment on
the same ring (true when there is none). -/
def entersRingF (segs : Store) : ℕ → ℕ → Bool
  | 0, _ => true
  | fuel + 1, i =>
    match prevSameRing segs segs.length (getSeg segs i).prev
        (getSeg segs i).ringId with
    | none => true
    | some j => !(entersRingF segs fuel j)

/-- `segment.js` `_ringsOnEdgeOf`: the rings of the coincidents. -/
def ringsOnEdgeOfF (segs : Store) (i : ℕ) : List ℕ :=
  (getSeg segs i).coincidents.map (fun j => (getSeg segs j).ringId)

/-- `segment.js` `_ringsEntering`. -/
def ringsEnteringF (segs : Store) (fuel i : ℕ) : List ℕ :=
  ((getSeg segs i).coincidents.filter (fun j => entersRingF segs fuel j)).map
    (fun j => (getSeg segs j).ringId)

/-- `segment.js` `_ringsExiting`. -/
def ringsExitingF (segs : Store) (fuel i : ℕ) : List ℕ :=
  ((getSeg segs i).coincidents.filter (fun j => !(entersRingF segs fuel j))).map
    (fun j => (getSeg segs j).ringId)

/-- `segment.js` `_ringsInsideOf`: inherit from `prev`, return the inherited
set directly when `prev` is a coincident, otherwise drop the rings `prev`
exits and add the rings `prev` enters, finally removing the rings this
segment is on the edge of. -/
def ringsInsideOfF (segs : Store) : ℕ → ℕ → List ℕ
  | 0, _ => []
  | fuel + 1, i =>
    let prevOpt := (getSeg segs i).prev
    let rings0 := match prevOpt with
      | none => []
      | some p => ringsInsideOfF segs fuel p
    if (getSeg segs i).coincidents.any (fun c => some c == prevOpt) then rings0
    else
      let rings1 := match prevOpt with
        | none => rings0
        | some p =>
          (rings0.filter (fun r => !((ringsExitingF segs segs.length p).contains r)))
            ++ ringsEnteringF segs segs.length p
      rings1.filter (fun r => !((ringsOnEdgeOfF segs i).contains r))

def ringOf (rings : List RingIn) (rid : ℕ) : RingIn := rings.getD rid default

/-- Modelled from the spec (§4.7, §6): the exterior ring id of a poly. -/
def exteriorRingOf (rings : List RingIn) (polyId : ℕ) : ℕ :=
  ((rings.filter (fun r => r.polyId == polyId && r.isExterior)).headD
    default).id

/-- Modelled from the spec (§4.7): `ring.isValid` — an exterior ring is valid
unless the segment lies strictly inside its own poly's exterior; a hole is
valid only when it lies inside the exterior. -/
def ringIsValid (rings : List RingIn) (rid : ℕ)
    (_entering _exiting insideOf : List ℕ) : Bool :=
  let r := ringOf rings rid
  let ext := exteriorRingOf rings r.polyId
  if r.isExterior then !(insideOf.contains ext) else insideOf.contains ext

/-- `segment.js` `_isValidEdgeForPoly`: the entering/exiting arguments are
swapped when the sweep line does not enter the ring. -/
def isValidEdgeForPolyF (segs : Store) (rings : List RingIn) (fuel i : ℕ) :
    Bool :=
  let ent := ringsEnteringF segs fuel i
  let ext := ringsExitingF segs fuel i
  let inside := ringsInsideOfF segs fuel i
  if entersRingF segs fuel i then
    ringIsValid rings (getSeg segs i).ringId ent ext inside
  else
    ringIsValid rings (getSeg segs i).ringId ext ent inside

/-- `segment.js` `get sweepLineEntersPoly`. -/
def entersPolyF (segs : Store) (rings : List RingIn) (fuel i : ℕ) : Bool :=
  isValidEdgeForPolyF segs rings fuel i &&
    ((ringOf rings (getSeg segs i).ringId).isExterior == entersRingF segs fuel i)

/-- `segment.js` `get sweepLineExitsPoly`. -/
def exitsPolyF (segs : Store) (rings : List RingIn) (fuel i : ℕ) : Bool :=
  isValidEdgeForPolyF segs rings fuel i &&
    ((ringOf rings (getSeg segs i).ringId).isExterior != entersRingF segs fuel i)

/-- Modelled from the spec (§4.7, §6): `poly.isInside` — the poly's exterior
is among the rings the segment is inside of, and the segment is not on the
edge of any of the poly's rings. -/
def polyIsInside (rings : List RingIn) (polyId : ℕ)
    (onEdge insideOf : List ℕ) : Bool :=
  insideOf.contains (exteriorRingOf rings polyId) &&
    !(((rings.filter (fun r => r.polyId == polyId)).map (fun r => r.id)).any
      (fun r => onEdge.contains r))

/-- `segment.js` `get polysInsideOf` (as poly ids). -/
def polysInsideOfF (segs : Store) (rings : List RingIn) (fuel i : ℕ) : List ℕ :=
  let inside := ringsInsideOfF segs fuel i
  let polys := jsDedup (inside.map (fun r => (ringOf rings r).polyId))
  polys.filter (fun p => polyIsInside rings p (ringsOnEdgeOfF segs i) inside)

/-- `segment.js` `get multiPolysInsideOf` (as multipoly ids). -/
def multiPolysInsideOfF (segs : Store) (rings : List RingIn) (fuel i : ℕ) :
    List ℕ :=
  jsDedup ((polysInsideOfF segs rings fuel i).map
    (fun p => (ringOf rings (exteriorRingOf rings p)).mpId))

/-- `segment.js` `get multiPolysSLPEnters`. -/
def multiPolysSLPEntersF (segs : Store) (rings : List RingIn) (fuel i : ℕ) :
    List ℕ :=
  let onlyEnters := ((getSeg segs i).coincidents.filter
    (fun c => entersPolyF segs rings fuel c)).map
    (fun c => (ringOf rings (getSeg segs c).ringId).mpId)
  jsDedup (onlyEnters ++ multiPolysInsideOfF segs rings fuel i)

/-- `segment.js` `get multiPolysSLPExits`. -/
def multiPolysSLPExitsF (segs : Store) (rings : List RingIn) (fuel i : ℕ) :
    List ℕ :=
  let onlyExits := ((getSeg segs i).coincidents.filter
    (fun c => exitsPolyF segs rings fuel c)).map
    (fun c => (ringOf rings (getSeg segs c).ringId).mpId)
  jsDedup (onlyExits ++ multiPolysInsideOfF segs rings fuel i)

/-- `segment.js` `get isInResult`, assembled from the embedded
`_isInResult` (`isInResultCalc`) and the classification above. -/
def isInResultF (segs : Store) (rings : List RingIn) (op : Operation)
    (fuel i : ℕ) : Bool :=
  isInResultCalc op (segIsCoincidenceWinner segs i)
    (multiPolysSLPEntersF segs rings fuel i)
    (multiPolysSLPExitsF segs rings fuel i)

/-! #### Initialisation, stitching and the union entry point -/

/-- Modelled from the spec (§4.9): decompose a ring's vertex list into
segments between consecutive vertices (the closing edge included), with
endpoints canonicalised as in the `Segment` constructor. -/
def segsOfRing (ringId startId : ℕ) (verts : List Pt) : List SegRec :=
  (verts.zip (verts.rotate 1)).enum.map (fun pair =>
    let selfId := startId + pair.1
    let a := pair.2.1
    let b := pair.2.2
    if 0 < comparePoints eps a b then
      SegRec.mk b a ringId none [selfId] []
    else
      SegRec.mk a b ringId none [selfId] [])

/-- Modelled from the spec (§4.9): push both endpoint events of every segment
into the queue. -/
def initQueue (segs : Store) : List Ev :=
  (List.range segs.length).foldl (fun q i =>
    let r := getSeg segs i
    insertEv segs ⟨i, false, r.rp⟩ (insertEv segs ⟨i, true, r.lp⟩ q)) []

/-- Modelled from the spec (§6): pick the starting in-result segment of a
ring — minimal left endpoint in the event order, ties by `Segment.compare`
(so the walk starts along the lowest edge, counterclockwise). -/
def pickStart (segs : Store) : List ℕ → ℕ → ℕ
  | [], best => best
  | i :: is, best =>
    let c := comparePoints eps (getSeg segs i).lp (getSeg segs best).lp
    let better :=
      if c < 0 then i
      else if 0 < c then best
      else
        match Segment.compare eps (toG segs i) (toG segs best) with
        | some v => if v < 0 then i else best
        | none => best
    pickStart segs is better

/-- Modelled from the spec (§6): walk the unused in-result segments from
point to point until the ring closes; returns the visited points (the start
point repeated at the end) and the used segment ids. -/
def walkRing (segs : Store) :
    ℕ → List ℕ → List ℕ → Pt → Pt → List Pt × List ℕ
  | 0, _, used, _, _ => ([], used)
  | fuel + 1, ids, used, current, start =>
    match ids.find? (fun e => !(used.contains e) &&
        (decide ((getSeg segs e).lp = current) ||
         decide ((getSeg segs e).rp = current))) with
    | none => ([], used)
    | some e =>
      let nxt := if (getSeg segs e).lp = current then (getSeg segs e).rp
        else (getSeg segs e).lp
      if nxt = start then ([nxt], e :: used)
      else
        let rest := walkRing segs fuel ids (e :: used) nxt start
        (nxt :: rest.1, rest.2)

/-- Modelled from the spec (§6): stitch all in-result segments into closed
rings. -/
def stitchAll (segs : Store) : ℕ → List ℕ → List (List Pt)
  | 0, _ => []
  | _ + 1, [] => []
  | fuel + 1, ids =>
    let s0 := pickStart segs ids (ids.headD 0)
    let r0 := getSeg segs s0
    let walked := walkRing segs (ids.length + 1) ids [s0] r0.rp r0.lp
    let ring := r0.lp :: r0.rp :: walked.1
    let remaining := ids.filter (fun i => !(walked.2.contains i))
    ring :: stitchAll segs fuel remaining

/-- Modelled from the spec: the whole union pipeline for two operands that
are single-ring (exterior only) multipolygons: ring decomposition, sweep,
inclusion marking, stitching; each output ring becomes a polygon of the
result multipolygon. -/
def unionPipeline (vertsA vertsB : List Pt) : List (List (List Pt)) :=
  let rings : List RingIn := [⟨0, 0, 0, true⟩, ⟨1, 1, 1, true⟩]
  let segsA := segsOfRing 0 0 vertsA
  let segs : Store := segsA ++ segsOfRing 1 segsA.length vertsB
  let st0 : SwState := ⟨rings, segs, initQueue segs, []⟩
  let stF := sweepRun 1000 st0
  let op : Operation := ⟨OpType.UNION, [0, 1], 0⟩
  let resultIds := (List.range stF.segs.length).filter
    (fun i => isInResultF stF.segs rings op stF.segs.length i)
  (stitchAll stF.segs (resultIds.length + 1) resultIds).map (fun r => [r])

set_option maxRecDepth 100000

/-- Claim C1: the union of the multipolygon `[[(0,0),(10,0),(10,10),(0,10)]]`
with `[[(5,5),(15,5),(15,15),(5,15)]]` is a single multipolygon holding the
single closed ring
`[(0,0),(10,0),(10,5),(15,5),(15,15),(5,15),(5,10),(0,10),(0,0)]`,
computed by running the full spec-modelled pipeline (ring decomposition,
Bentley–Ottmann sweep with the `segment.js` geometry, UNION inclusion
marking, ring stitching). -/
theorem c1_union_end_to_end :
    unionPipeline [(0, 0), (10, 0), (10, 10), (0, 10)]
        [(5, 5), (15, 5), (15, 15), (5, 15)] =
      [[[(0, 0), (10, 0), (10, 5), (15, 5), (15, 15), (5, 15), (5, 10),
         (0, 10), (0, 0)]]] := by
  with_unfolding_all decide

end PolyClip
